import Mathlib

/-!
# The `mse` listener filter and the llhttp parser adapter

A shallow embedding of

* `source/extensions/filters/listener/mse/mse.{h,cc}`: the listener filter that
  reads the request preface of a freshly accepted connection, collects its
  headers through llhttp callbacks and restores the local address named by the
  `x-mse-original-dst-host` header;
* `source/common/http/http1/llhttp_parser_impl.cc`: the llhttp adapter
  (namespace `Http1` below).

Conventions of the embedding.

* A `std::string` / `absl::string_view` is a `List Char`, one `Char` per byte.
* llhttp is a third-party library: `llhttp_execute` is a parameter of the model
  (`Env.llhttp_execute`).  It maps the parser state and the bytes it is fed to
  the new parser state, the callbacks it fires, in order, and the `llhttp_errno_t`
  it returns.  Every callback of the filter returns `0`, so the callbacks never
  influence the engine.
* `Network::Utility::parseInternetAddressAndPortNoThrow` is a parameter as well
  (`Env.parseInternetAddressAndPortNoThrow`, `none` for `nullptr`).
* A `const char*` is its address, a `Nat`, `0` for `nullptr`; a `size_t` is a `Nat` below
  `2 ^ 64`, with the conversions to it written out.
* A step whose C++ behaviour is undefined (reading `data[0]` of an empty view,
  dereferencing a null `cb_`) has no result: the functions return `Option`.
-/

namespace Mse

/-- A byte string: `std::string` or `absl::string_view`. -/
abbrev Bytes := List Char

/-! ## The engine's status codes -/

/-- Modelled from the spec: `HPE_OK` of `llhttp.h` (third-party header, not among the
sources), the engine's "Ok" status; `callbackResultToInt` sends `Success` to it and the
spec gives that encoding as `0`. -/
def HPE_OK : Int := 0

/-- Modelled from the spec: `HPE_INTERNAL` of `llhttp.h`, the engine's "internal" notice;
the numbering is llhttp's. -/
def HPE_INTERNAL : Int := 1

/-- Modelled from the spec: `HPE_STRICT` of `llhttp.h`, the engine's "strict-mode" notice;
the numbering is llhttp's. -/
def HPE_STRICT : Int := 2

/-- Modelled from the spec: `HPE_UNEXPECTED_CONTENT_LENGTH` of `llhttp.h`; the numbering is
llhttp's. -/
def HPE_UNEXPECTED_CONTENT_LENGTH : Int := 4

/-- Modelled from the spec: `HPE_INVALID_HEADER_TOKEN` of `llhttp.h`; the numbering is
llhttp's. -/
def HPE_INVALID_HEADER_TOKEN : Int := 10

/-- Modelled from the spec: `HPE_PAUSED` of `llhttp.h`, the engine's pause sentinel; the
numbering is llhttp's. -/
def HPE_PAUSED : Int := 21

/-- Modelled from the spec: `HPE_USER` of `llhttp.h`, the engine's user-error sentinel; the
numbering is llhttp's. -/
def HPE_USER : Int := 24

/-! ## Types of `mse.h` and of the listener-filter interface -/

/-- The `enum class ParseState` of `mse.h`. -/
inductive ParseState
  | Done
  | Continue
  | Error
  deriving DecidableEq, Repr

/-- Modelled from the spec: `Network::FilterStatus` (`envoy/network/filter.h`, not among the
sources): `StopIteration` keeps the filter waiting for data, `Continue` hands the connection
to the next filter. -/
inductive FilterStatus
  | StopIteration
  | Continue
  deriving DecidableEq, Repr

/-- The callbacks that `HttpParserSettings::HttpParserSettings` registers in `settings_`:
`on_message_begin`, `on_header_field`, `on_header_value`, `on_headers_complete`.  No other
callback of llhttp is set, so no other event reaches the filter. -/
inductive Event
  | messageBegin
  | headerField (bytes : Bytes)
  | headerValue (bytes : Bytes)
  | headersComplete
  deriving DecidableEq, Repr

/-- Modelled from the spec: the connection-info provider of the socket
(`ConnectionInfoSetter`, not among the sources): the recorded local (destination) address and
the "restored" flag that `localAddress()` and `localAddressRestored()` report. -/
structure ConnectionInfo (α : Type) where
  localAddress : α
  localAddressRestored : Bool
  deriving DecidableEq, Repr

/-- Modelled from the spec: `ConnectionInfoSetter::restoreLocalAddress` (not among the
sources), the one-shot address override "after which the new address and an overridden flag
are observable". -/
def ConnectionInfo.restoreLocalAddress {α : Type} (_c : ConnectionInfo α) (a : α) :
    ConnectionInfo α :=
  { localAddress := a, localAddressRestored := true }

/-- Modelled from the spec: the part of `Network::ConnectionSocket` that the filter uses
(the class is not among the sources): the detected transport protocol and the
connection-info provider. -/
structure ConnectionSocket (α : Type) where
  detectedTransportProtocol : Bytes
  connectionInfoProvider : ConnectionInfo α
  deriving DecidableEq, Repr

/-- `std::multimap<std::string, std::string>`: the entries in key order. -/
abbrev HeaderMap := List (Bytes × Bytes)

/-- The data members of `Filter` (`mse.h`).  `cb_` is the pointer to the listener callbacks,
`none` for `nullptr`; the socket it leads to is kept with it.  `parser_` is the llhttp state.
`feeds` is not a member of the class: it records the argument of every `llhttp_execute`
call made so far, oldest first.  `restores` is no member either: it records the argument of
every `restoreLocalAddress` call made so far, oldest first. -/
structure Filter (σ α : Type) where
  m_curField : Bytes
  m_curValue : Bytes
  m_lastWasValue : Bool
  m_headers : HeaderMap
  cb_ : Option (ConnectionSocket α)
  parser_ : σ
  feeds : List Bytes
  restores : List α

/-- The external collaborators of the filter. -/
structure Env (σ α : Type) where
  /-- The state `llhttp_init` leaves in `parser_`. -/
  llhttp_init : σ
  /-- The engine: new state, callbacks fired, returned `llhttp_errno_t`. -/
  llhttp_execute : σ → Bytes → σ × List Event × Int
  /-- The endpoint parser, called with `v6only = false`. -/
  parseInternetAddressAndPortNoThrow : Bytes → Option α

/-! ## String helpers -/

/-- The function `absl::ascii_tolower`: `A`..`Z` to `a`..`z`, every other byte unchanged. -/
def ascii_tolower (c : Char) : Char :=
  if 65 ≤ c.toNat ∧ c.toNat ≤ 90 then Char.ofNat (c.toNat + 32) else c

/-- The function `absl::AsciiStrToLower`. -/
def AsciiStrToLower (s : Bytes) : Bytes := s.map ascii_tolower

/-- Whether `needle` is an initial segment of `data` (the comparison at one position that
`string_view::find` makes). -/
def startsWith : Bytes → Bytes → Bool
  | _, [] => true
  | [], _ :: _ => false
  | d :: ds, n :: ns => d == n && startsWith ds ns

/-- The method `absl::string_view::find(needle)`: the least position at which `needle`
occurs in `data`, `none` for `npos`. -/
def find : Bytes → Bytes → Option Nat
  | [], needle => if startsWith [] needle then some 0 else none
  | d :: ds, needle =>
    if startsWith (d :: ds) needle then some 0
    else (find ds needle).map (fun p => p + 1)

/-- The header-block terminator `"\r\n\r\n"`. -/
def terminator : Bytes := ['\r', '\n', '\r', '\n']

/-- The order of `std::string` (`std::less`): lexicographic on the bytes. -/
def bytesLt : Bytes → Bytes → Bool
  | [], [] => false
  | [], _ :: _ => true
  | _ :: _, [] => false
  | a :: as, b :: bs =>
    if a.toNat < b.toNat then true
    else if b.toNat < a.toNat then false
    else bytesLt as bs

/-! ## The header store -/

/-- The method `std::multimap::insert`: the new entry goes after every entry whose key is
not greater than its key. -/
def multimapInsert : HeaderMap → Bytes × Bytes → HeaderMap
  | [], kv => [kv]
  | e :: rest, kv =>
    if bytesLt kv.1 e.1 then kv :: e :: rest else e :: multimapInsert rest kv

/-- The method `std::multimap::find`: an entry with the key, `none` for `end()`.  When
several entries have the key the standard leaves the choice open; this is the first of them
in key order, as in libstdc++ and libc++. -/
def multimapFind (m : HeaderMap) (key : Bytes) : Option (Bytes × Bytes) :=
  m.find? (fun e => e.1 == key)

/-- Modelled from the spec: `Http::Headers::get().MseOriginalDstHost` (`headers.h` is not
among the sources), the fixed override-header name. -/
def MseOriginalDstHost : Bytes := "x-mse-original-dst-host".toList

/-! ## The filter (`mse.cc`) -/

section filter

variable {σ α : Type}

/-- The constructor `Filter::Filter`: empty strings and store, `cb_{nullptr}`, the parser
initialised.  `m_lastWasValue` has no initialiser: its first value is indeterminate and is
the argument `lastWasValue`. -/
def Filter.new (env : Env σ α) (lastWasValue : Bool) : Filter σ α :=
  { m_curField := [], m_curValue := [], m_lastWasValue := lastWasValue, m_headers := [],
    cb_ := none, parser_ := env.llhttp_init, feeds := [], restores := [] }

/-- The method `Filter::completeLastHeader`. -/
def completeLastHeader (s : Filter σ α) (field value : Bytes) : Filter σ α :=
  { s with m_headers := multimapInsert s.m_headers (field, value) }

/-- The method `Filter::handleMessageBegin`. -/
def handleMessageBegin (s : Filter σ α) : Filter σ α :=
  { s with m_curField := [], m_curValue := [], m_lastWasValue := true }

/-- The method `Filter::handleHeaderField`. -/
def handleHeaderField (s : Filter σ α) (field : Bytes) : Filter σ α :=
  let s1 :=
    if s.m_lastWasValue then
      let s0 := if s.m_curField ≠ [] then completeLastHeader s s.m_curField s.m_curValue else s
      { s0 with m_curField := [], m_curValue := [] }
    else s
  { s1 with m_curField := AsciiStrToLower field, m_lastWasValue := false }

/-- The method `Filter::handleHeaderValue`. -/
def handleHeaderValue (s : Filter σ α) (value : Bytes) : Filter σ α :=
  { s with m_curValue := s.m_curValue ++ value, m_lastWasValue := true }

/-- The method `Filter::handleHeadersComplete`. -/
def handleHeadersComplete (s : Filter σ α) : Filter σ α :=
  if s.m_curField ≠ [] then completeLastHeader s s.m_curField s.m_curValue else s

/-- The static callbacks of `HttpParserSettings`: each forwards to its handler. -/
def dispatch (s : Filter σ α) : Event → Filter σ α
  | Event.messageBegin => handleMessageBegin s
  | Event.headerField b => handleHeaderField s b
  | Event.headerValue b => handleHeaderValue s b
  | Event.headersComplete => handleHeadersComplete s

/-- The callbacks of one `llhttp_execute` call, in the order the engine fires them. -/
def runEvents (s : Filter σ α) (events : List Event) : Filter σ α :=
  events.foldl dispatch s

/-- The method `Filter::findHeaderValue`. -/
def findHeaderValue (s : Filter σ α) (key : Bytes) : Bytes :=
  match multimapFind s.m_headers key with
  | some e => e.2
  | none => []

/-- The method `Filter::restoreMseLocalAddress`.  No result when `cb_` is null at the
`restoreLocalAddress` call; the call is recorded in `restores`. -/
def restoreMseLocalAddress (env : Env σ α) (s : Filter σ α) (host : Bytes) :
    Option (Filter σ α) :=
  if host = [] then some s
  else
    match env.parseInternetAddressAndPortNoThrow host with
    | some request_host =>
      match s.cb_ with
      | some sock =>
        some { s with
          cb_ := some { sock with connectionInfoProvider :=
            (sock.connectionInfoProvider.restoreLocalAddress request_host) },
          restores := s.restores ++ [request_host] }
      | none => none
    | none => some s

/-- The method `Filter::resolveMseRedirect`. -/
def resolveMseRedirect (env : Env σ α) (s : Filter σ α) : Option (Filter σ α) :=
  match restoreMseLocalAddress env s (findHeaderValue s MseOriginalDstHost) with
  | some s1 => some (if s1.m_headers ≠ [] then { s1 with m_headers := [] } else s1)
  | none => none

/-- The call `llhttp_execute(&parser_, new_data.data(), new_data.length())` made by
`parseHttpHeader`: the engine consumes the bytes, its callbacks run on the filter in the
order they are fired, and its `llhttp_errno_t` is returned. -/
def execute (env : Env σ α) (s : Filter σ α) (new_data : Bytes) : Int × Filter σ α :=
  let r := env.llhttp_execute s.parser_ new_data
  (r.2.2, runEvents { s with parser_ := r.1, feeds := s.feeds ++ [new_data] } r.2.1)

/-- The method `Filter::parseHttpHeader`.  No result on the empty view, whose `data[0]` is
read out of bounds. -/
def parseHttpHeader (env : Env σ α) (s : Filter σ α) (data : Bytes) :
    Option (ParseState × Filter σ α) :=
  match data with
  | [] => none
  | c :: _ =>
    if c = '\r' ∨ c = '\n' then some (ParseState.Error, s)
    else
      match find data terminator with
      | some pos =>
        let new_data := data.take (pos + 4)
        let r := execute env s new_data
        let error := r.1
        if error ≠ HPE_OK ∧ error ≠ HPE_PAUSED ∧ error ≠ HPE_STRICT ∧ error ≠ HPE_INTERNAL then
          some (ParseState.Error, r.2)
        else
          match resolveMseRedirect env r.2 with
          | some s2 => some (ParseState.Done, s2)
          | none => none
      | none => some (ParseState.Error, s)

/-- The method `Filter::onData`, on the raw slice of the buffer.  `done` only logs. -/
def onData (env : Env σ α) (s : Filter σ α) (data : Bytes) :
    Option (FilterStatus × Filter σ α) :=
  match parseHttpHeader env s data with
  | some (ParseState.Error, s1) => some (FilterStatus.Continue, s1)
  | some (ParseState.Done, s1) => some (FilterStatus.Continue, s1)
  | some (ParseState.Continue, s1) => some (FilterStatus.StopIteration, s1)
  | none => none

/-- The method `Filter::onAccept`, on the socket of the callbacks `cb`. -/
def onAccept (s : Filter σ α) (cb : ConnectionSocket α) : FilterStatus × Filter σ α :=
  let transport_protocol := cb.detectedTransportProtocol
  if transport_protocol ≠ [] ∧ transport_protocol ≠ "raw_buffer".toList then
    (FilterStatus.Continue, s)
  else
    (FilterStatus.StopIteration, { s with cb_ := some cb })

/-- The constant `Config::MAX_INSPECT_SIZE` of `mse.h`. -/
def Config.MAX_INSPECT_SIZE : Nat := 8192

/-- The method `Filter::maxReadBytes`. -/
def maxReadBytes : Nat := Config.MAX_INSPECT_SIZE

/-- The callbacks llhttp fires for a header block whose headers arrive in order, each as one
`header-field` call followed by its `header-value` fragments. -/
def headerCallbacks : List (Bytes × List Bytes) → List Event
  | [] => []
  | h :: rest => Event.headerField h.1 :: (h.2.map Event.headerValue ++ headerCallbacks rest)

/-- Whether two bytes are the same byte or the two cases of one ASCII letter.  This is the
spec's "whatever letter case", stated on the byte values and not through `ascii_tolower`. -/
def sameIgnoringCase (c k : Char) : Bool :=
  c == k ||
  (decide (65 ≤ c.toNat) && decide (c.toNat ≤ 90) && k.toNat == c.toNat + 32) ||
  (decide (65 ≤ k.toNat) && decide (k.toNat ≤ 90) && c.toNat == k.toNat + 32)

/-- Whether two header names are equal up to the case of their ASCII letters. -/
def eqIgnoringCase : Bytes → Bytes → Bool
  | [], [] => true
  | c :: cs, k :: ks => sameIgnoringCase c k && eqIgnoringCase cs ks
  | [], _ :: _ => false
  | _ :: _, [] => false

end filter

end Mse

/-! ## The adapter (`llhttp_parser_impl.cc`) -/

namespace Http1

open Mse (HPE_OK HPE_PAUSED HPE_USER HPE_UNEXPECTED_CONTENT_LENGTH)

/-- Modelled from the spec: `ParserStatus` (`parser.h`, not among the sources), the 3-way
status of the adapter. -/
inductive ParserStatus
  | Error
  | Ok
  | Paused
  deriving DecidableEq, Repr

/-- Modelled from the spec: `CallbackResult` (`parser.h`, not among the sources), what every
event handler returns. -/
inductive CallbackResult
  | Error
  | Success
  | NoBody
  | NoBodyData
  | Paused
  deriving DecidableEq, Repr

/-- Modelled from the spec: `MessageType` (`parser.h`, not among the sources), the message
direction the adapter is constructed with. -/
inductive MessageType
  | Request
  | Response
  deriving DecidableEq, Repr

/-- Modelled from the spec: the fields of `llhttp_t` (`llhttp.h`, not among the sources) that
the adapter reads, `error` and `error_pos` being what `llhttp_get_errno` and
`llhttp_get_error_pos` return. -/
structure llhttp_t where
  error : Int
  error_pos : Nat
  content_length : Nat
  status_code : Nat
  http_major : Nat
  http_minor : Nat
  deriving DecidableEq, Repr

/-- The engine as the adapter uses it.  `llhttp_init` gives the state of a parser of the given
direction (with the lenient chunked-length flag the constructor sets).  `llhttp_execute`
takes the state, the address of the slice and the bytes at it, and gives the new state
and the returned `llhttp_errno_t`; `llhttp_finish` likewise, without bytes. -/
structure Engine where
  llhttp_init : MessageType → llhttp_t
  llhttp_execute : llhttp_t → Nat → Mse.Bytes → llhttp_t × Int
  llhttp_finish : llhttp_t → llhttp_t × Int

/-- The data members of `LlhttpHttpParserImpl::Impl` that the methods below use. -/
structure Impl where
  parser_ : llhttp_t
  has_content_length_ : Bool
  deriving DecidableEq, Repr

/-- The function `intToStatus`. -/
def intToStatus (rc : Int) : ParserStatus :=
  if rc = -1 ∨ rc = HPE_USER then ParserStatus.Error
  else if rc = HPE_OK then ParserStatus.Ok
  else if rc = 1 then ParserStatus.Error
  else if rc = 2 then ParserStatus.Error
  else if rc = HPE_PAUSED then ParserStatus.Paused
  else ParserStatus.Error

/-- The function `callbackResultToInt`; its `default` branch is for values outside the
enumeration. -/
def callbackResultToInt : CallbackResult → Int
  | CallbackResult.Error => HPE_USER
  | CallbackResult.Success => HPE_OK
  | CallbackResult.NoBody => 1
  | CallbackResult.NoBodyData => 2
  | CallbackResult.Paused => HPE_PAUSED

/-- The constructor `LlhttpHttpParserImpl::LlhttpHttpParserImpl`: the parser initialised for the
direction, `has_content_length_{true}`. -/
def Impl.new (eng : Engine) (type : MessageType) : Impl :=
  { parser_ := eng.llhttp_init type, has_content_length_ := true }

/-- The conversion of an integer to `size_t`. -/
def toSizeT (n : Int) : Nat := (n % 2 ^ 64).toNat

/-- The method `Impl::execute`: `slice` is the address (`0` for `nullptr`), `mem` the bytes
stored from that address on, `len` the `int` length.  The result is `nread` and the adapter
after the call. -/
def Impl.execute (eng : Engine) (impl : Impl) (slice : Nat) (mem : Mse.Bytes) (len : Int) :
    Nat × Impl :=
  let r :=
    if slice = 0 ∨ len = 0 then eng.llhttp_finish impl.parser_
    else eng.llhttp_execute impl.parser_ slice (mem.take len.toNat)
  let error := r.2
  let nread :=
    if error ≠ HPE_OK then toSizeT ((r.1.error_pos : Int) - (slice : Int))
    else toSizeT len
  (nread, { impl with parser_ := r.1 })

/-- The method `Impl::getErrno`. -/
def Impl.getErrno (impl : Impl) : Int := impl.parser_.error

/-- The method `LlhttpHttpParserImpl::getStatus`. -/
def Impl.getStatus (impl : Impl) : ParserStatus := intToStatus impl.getErrno

/-- The method `Impl::statusCode`. -/
def Impl.statusCode (impl : Impl) : Nat := impl.parser_.status_code

/-- The method `Impl::isHttp11`. -/
def Impl.isHttp11 (impl : Impl) : Bool :=
  impl.parser_.http_major == 1 && impl.parser_.http_minor == 1

/-- The method `Impl::contentLength`, `none` for `absl::nullopt`. -/
def Impl.contentLength (impl : Impl) : Option Nat :=
  if !impl.has_content_length_ then none else some impl.parser_.content_length

/-- The method `Impl::setHasContentLength`. -/
def Impl.setHasContentLength (impl : Impl) (val : Bool) : Impl :=
  { impl with has_content_length_ := val }

end Http1

namespace Mse

/-! ## Stand-ins for the external collaborators

The theorems below hold for every engine and every endpoint parser.  The two definitions of
this section are used only to instantiate them at concrete inputs. -/

/-- The line up to the first `"\r\n"` and the bytes after it. -/
def splitLine : Bytes → Option (Bytes × Bytes)
  | [] => none
  | c :: rest =>
    if startsWith (c :: rest) ['\r', '\n'] then some ([], rest.drop 1)
    else
      match splitLine rest with
      | some (l, r) => some (c :: l, r)
      | none => none

/-- The bytes before and after the first occurrence of `sep`. -/
def splitAtChar (sep : Char) : Bytes → Option (Bytes × Bytes)
  | [] => none
  | c :: rest =>
    if c = sep then some ([], rest)
    else
      match splitAtChar sep rest with
      | some (l, r) => some (c :: l, r)
      | none => none

/-- The header lines of a request, as the events and status of `lineEngine`. -/
def headerLines : Nat → Bytes → List Event × Int
  | 0, _ => ([], HPE_OK)
  | fuel + 1, data =>
    match splitLine data with
    | none => ([], HPE_OK)
    | some ([], _) => ([Event.headersComplete], HPE_OK)
    | some (line, rest) =>
      match splitAtChar ':' line with
      | none => ([], HPE_INVALID_HEADER_TOKEN)
      | some (name, value) =>
        let r := headerLines fuel rest
        (Event.headerField name :: Event.headerValue (value.dropWhile (fun c => c == ' ')) :: r.1,
          r.2)

/-- Modelled from the spec: a stand-in for the external grammar engine (llhttp, not among
the sources) on a request preface: message-begin, then for each `name: value` line one
header-field and one header-value event, then headers-complete at the blank line; a header
line without a colon is a grammar error. -/
def lineEngine : Unit → Bytes → Unit × List Event × Int := fun _ data =>
  match splitLine data with
  | none => ((), [Event.messageBegin], HPE_OK)
  | some (_, rest) =>
    let r := headerLines rest.length rest
    ((), Event.messageBegin :: r.1, r.2)

/-- An IPv4 endpoint: the four octets and the port. -/
structure Ipv4Endpoint where
  octets : List Nat
  port : Nat
  deriving DecidableEq, Repr

/-- A decimal number: one or more ASCII digits. -/
def parseDecimal (s : Bytes) : Option Nat :=
  if s = [] then none
  else s.foldl (fun acc c =>
    match acc with
    | some n => if 48 ≤ c.toNat ∧ c.toNat ≤ 57 then some (10 * n + (c.toNat - 48)) else none
    | none => none) (some 0)

/-- The pieces of `s` between the occurrences of `sep`. -/
def splitOnChar (sep : Char) : Bytes → List Bytes
  | [] => [[]]
  | c :: rest =>
    if c = sep then [] :: splitOnChar sep rest
    else
      match splitOnChar sep rest with
      | [] => [[c]]
      | h :: t => (c :: h) :: t

/-- Modelled from the spec: a stand-in for `parseInternetAddressAndPortNoThrow` (not among
the sources) on IPv4 endpoints `a.b.c.d:port`; anything else does not parse. -/
def parseIpv4AndPort (s : Bytes) : Option Ipv4Endpoint :=
  match splitOnChar ':' s with
  | [host, port] =>
    match (splitOnChar '.' host).mapM parseDecimal, parseDecimal port with
    | some [a, b, c, d], some p =>
      if a ≤ 255 ∧ b ≤ 255 ∧ c ≤ 255 ∧ d ≤ 255 ∧ p ≤ 65535 then some ⟨[a, b, c, d], p⟩
      else none
    | _, _ => none
  | _ => none

/-- The collaborators used at concrete inputs. -/
def testEnv : Env Unit Ipv4Endpoint :=
  { llhttp_init := (), llhttp_execute := lineEngine,
    parseInternetAddressAndPortNoThrow := parseIpv4AndPort }

/-- The request of `MseTest.TestHttp11OverrideHost`. -/
def testHeader : Bytes :=
  ("GET /anything HTTP/1.1\r\nuser-agent: curl/7.64.0\r\naccept: " ++
   "*/*\r\nx-mse-original-dst-host: 127.1.2.3:9080\r\nHost: test.com:9081\r\nx-request-id: " ++
   "a52df4a0-ed00-4a19-86a7-80e5049c6c84\r\nx-envoy-expected-rq-timeout-ms: " ++
   "15000\r\ncontent-length: 0\r\n\r\n").toList

/-- The same request with an override value that is no endpoint. -/
def testHeaderInvalid : Bytes :=
  ("GET /anything HTTP/1.1\r\nuser-agent: curl/7.64.0\r\naccept: " ++
   "*/*\r\nx-mse-original-dst-host: not-an-address\r\nHost: test.com:9081\r\n" ++
   "content-length: 0\r\n\r\n").toList

/-- The collaborators of `testEnv` with an engine that reports `HPE_PAUSED` and fires no
callback, as llhttp does when it is run while paused. -/
def pausedEnv : Env Unit Ipv4Endpoint :=
  { llhttp_init := (), llhttp_execute := fun _ _ => ((), [], HPE_PAUSED),
    parseInternetAddressAndPortNoThrow := parseIpv4AndPort }

/-- The socket of the test: transport `raw_buffer`, some original destination. -/
def testSocket : ConnectionSocket Ipv4Endpoint :=
  { detectedTransportProtocol := "raw_buffer".toList,
    connectionInfoProvider :=
      { localAddress := ⟨[10, 0, 0, 1], 80⟩, localAddressRestored := false } }

/-- The filter of the test when `onData` is called: constructed, then `onAccept` on
`testSocket`. -/
def acceptedFilter : Filter Unit Ipv4Endpoint :=
  (onAccept (Filter.new testEnv false) testSocket).2

/-- An engine for the adapter that reports the status `e` on every slice it is run on, with
the error position `offset` bytes into the slice when `e` is an error; all fields are zero
after `llhttp_init`, as llhttp leaves them. -/
def stubEngine (e : Int) (offset : Nat) : Http1.Engine :=
  { llhttp_init := fun _ =>
      { error := 0, error_pos := 0, content_length := 0, status_code := 0, http_major := 0,
        http_minor := 0 },
    llhttp_execute := fun st slice _ =>
      ({ st with error := e, error_pos := if e = HPE_OK then 0 else slice + offset }, e),
    llhttp_finish := fun st => (st, st.error) }

/-- A longer window of the same connection: the test request followed by the first bytes of
a next message. -/
def testHeaderLonger : Bytes :=
  testHeader ++ "GET /next HTTP/1.1\r\n".toList

/-- The collaborators of `testEnv` with an engine that fires the callbacks of `lineEngine` and
reports the notice `HPE_STRICT`. -/
def strictEnv : Env Unit Ipv4Endpoint :=
  { llhttp_init := (),
    llhttp_execute := fun st data => ((), (lineEngine st data).2.1, HPE_STRICT),
    parseInternetAddressAndPortNoThrow := parseIpv4AndPort }

/-- The value that follows the first header-field event named `name`, in any letter case. -/
def valueAfter (name : Bytes) : List Event → Option Bytes
  | [] => none
  | e :: rest =>
    match e, rest with
    | Event.headerField f, Event.headerValue v :: _ =>
      if AsciiStrToLower f = name then some v else valueAfter name rest
    | _, _ => valueAfter name rest

/-- An engine for the adapter on request prefaces: the status is the one of `lineEngine`, the
version is 1.1, and `content_length` is the decimal value of the `Content-Length` header when
there is one. -/
def contentLengthEngine : Http1.Engine :=
  { llhttp_init := fun _ =>
      { error := 0, error_pos := 0, content_length := 0, status_code := 0, http_major := 0,
        http_minor := 0 },
    llhttp_execute := fun st slice data =>
      let r := lineEngine () data
      ({ st with
          error := r.2.2,
          error_pos := if r.2.2 = HPE_OK then 0 else slice,
          content_length :=
            match (valueAfter "content-length".toList r.2.1).bind parseDecimal with
            | some n => n
            | none => st.content_length,
          http_major := 1, http_minor := 1 }, r.2.2),
    llhttp_finish := fun st => (st, st.error) }

/-! ## Lemmas on the string helpers -/

theorem startsWith_iff (n : Bytes) :
    ∀ d : Bytes, startsWith d n = true ↔ d.take n.length = n := by
  induction n with
  | nil => intro d; simp [startsWith]
  | cons x xs ih =>
    intro d
    cases d with
    | nil => simp [startsWith]
    | cons y ys =>
      simp only [startsWith, Bool.and_eq_true, beq_iff_eq, ih, List.length_cons,
        List.take_succ_cons, List.cons.injEq]

/-- What `find` returns is an occurrence, and no earlier position is one. -/
theorem find_some_spec (needle : Bytes) : ∀ (data : Bytes) (p : Nat),
    find data needle = some p →
    (data.drop p).take needle.length = needle ∧
      ∀ q, q < p → (data.drop q).take needle.length ≠ needle := by
  intro data
  induction data with
  | nil =>
    intro p h
    simp only [find] at h
    split at h
    · rename_i hs
      cases h
      exact ⟨(startsWith_iff needle []).1 hs, fun q hq => absurd hq (Nat.not_lt_zero q)⟩
    · cases h
  | cons d ds ih =>
    intro p h
    simp only [find] at h
    split at h
    · rename_i hs
      cases h
      exact ⟨(startsWith_iff needle (d :: ds)).1 hs, fun q hq => absurd hq (Nat.not_lt_zero q)⟩
    · rename_i hs
      cases hf : find ds needle with
      | none => simp [hf] at h
      | some p' =>
        simp only [hf, Option.map_some', Option.some.injEq] at h
        subst h
        obtain ⟨h1, h2⟩ := ih p' hf
        refine ⟨by simpa using h1, ?_⟩
        intro q hq
        cases q with
        | zero =>
          intro hc
          exact hs ((startsWith_iff needle (d :: ds)).2 (by simpa using hc))
        | succ q' =>
          have := h2 q' (by omega)
          simpa using this

/-- The first occurrence is what `find` returns. -/
theorem find_eq_some_of_first (needle : Bytes) : ∀ (data : Bytes) (p : Nat),
    (data.drop p).take needle.length = needle →
    (∀ q, q < p → (data.drop q).take needle.length ≠ needle) →
    find data needle = some p := by
  intro data
  induction data with
  | nil =>
    intro p h1 h2
    have hn : needle = [] := by simpa using h1.symm
    subst hn
    cases p with
    | zero => simp [find, startsWith]
    | succ p' => exact absurd (by simp) (h2 0 (Nat.succ_pos p'))
  | cons d ds ih =>
    intro p h1 h2
    cases p with
    | zero =>
      have hs : startsWith (d :: ds) needle = true :=
        (startsWith_iff needle (d :: ds)).2 (by simpa using h1)
      simp [find, hs]
    | succ p' =>
      have hs : ¬ startsWith (d :: ds) needle = true := by
        intro hc
        exact h2 0 (Nat.succ_pos p') (by simpa using (startsWith_iff needle (d :: ds)).1 hc)
      have hrec : find ds needle = some p' := by
        apply ih p' (by simpa using h1)
        intro q hq
        have := h2 (q + 1) (by omega)
        simpa using this
      simp [find, hs, hrec]

/-- Without an occurrence `find` returns `npos`. -/
theorem find_eq_none_of_absent (needle : Bytes) : ∀ (data : Bytes),
    (∀ q, (data.drop q).take needle.length ≠ needle) → find data needle = none := by
  intro data h
  cases hf : find data needle with
  | none => rfl
  | some p => exact absurd (find_some_spec needle data p hf).1 (h p)

/-! ## Lemmas on the header store -/

theorem mem_multimapInsert (kv x : Bytes × Bytes) : ∀ m : HeaderMap,
    x ∈ multimapInsert m kv ↔ x = kv ∨ x ∈ m := by
  intro m
  induction m with
  | nil => simp [multimapInsert]
  | cons e rest ih =>
    simp only [multimapInsert]
    split
    · simp
    · simp only [List.mem_cons, ih]
      tauto

theorem multimapInsert_perm (kv : Bytes × Bytes) : ∀ m : HeaderMap,
    (multimapInsert m kv).Perm (kv :: m) := by
  intro m
  induction m with
  | nil => simp [multimapInsert]
  | cons e rest ih =>
    simp only [multimapInsert]
    split
    · exact List.Perm.refl _
    · exact ((List.Perm.cons e ih).trans (List.Perm.swap kv e rest))

/-- A key that occurs once is found with its value. -/
theorem multimapFind_of_unique (key v : Bytes) : ∀ m : HeaderMap,
    (key, v) ∈ m → (m.map Prod.fst).count key = 1 → multimapFind m key = some (key, v) := by
  intro m
  induction m with
  | nil => intro h; simp at h
  | cons e rest ih =>
    intro hmem hcount
    by_cases hk : e.1 = key
    · have hz : (rest.map Prod.fst).count key = 0 := by
        simp only [List.map_cons, hk, List.count_cons_self] at hcount
        omega
      have hnot : key ∉ rest.map Prod.fst := List.count_eq_zero.1 hz
      have he : e = (key, v) := by
        rcases List.mem_cons.1 hmem with h | h
        · exact h.symm
        · exact absurd (List.mem_map_of_mem Prod.fst h) hnot
      simp [multimapFind, he]
    · have hrest : (key, v) ∈ rest := by
        rcases List.mem_cons.1 hmem with h | h
        · exact absurd (by rw [← h]) hk
        · exact h
      have hc : (rest.map Prod.fst).count key = 1 := by
        simpa [List.count_cons, hk] using hcount
      have := ih hrest hc
      simpa [multimapFind, List.find?_cons, hk] using this

/-- An entry that `find` returns has the key and is in the store. -/
theorem multimapFind_some (key : Bytes) (m : HeaderMap) (e : Bytes × Bytes)
    (h : multimapFind m key = some e) : e.1 = key ∧ e ∈ m := by
  unfold multimapFind at h
  have h1 := List.find?_some h
  have h2 := List.mem_of_find?_eq_some h
  exact ⟨by simpa using h1, h2⟩

/-! ## Lemmas on the filter -/

section lemmas

variable {σ α : Type}

theorem dispatch_cb (s : Filter σ α) (e : Event) : (dispatch s e).cb_ = s.cb_ := by
  cases e <;> simp only [dispatch, handleMessageBegin, handleHeaderField, handleHeaderValue,
    handleHeadersComplete, completeLastHeader] <;> split_ifs <;> rfl

theorem dispatch_feeds (s : Filter σ α) (e : Event) : (dispatch s e).feeds = s.feeds := by
  cases e <;> simp only [dispatch, handleMessageBegin, handleHeaderField, handleHeaderValue,
    handleHeadersComplete, completeLastHeader] <;> split_ifs <;> rfl

theorem dispatch_parserState (s : Filter σ α) (e : Event) :
    (dispatch s e).parser_ = s.parser_ := by
  cases e <;> simp only [dispatch, handleMessageBegin, handleHeaderField, handleHeaderValue,
    handleHeadersComplete, completeLastHeader] <;> split_ifs <;> rfl

theorem runEvents_cb (events : List Event) :
    ∀ s : Filter σ α, (runEvents s events).cb_ = s.cb_ := by
  induction events with
  | nil => intro s; rfl
  | cons e es ih => intro s; simp only [runEvents, List.foldl_cons] at ih ⊢; rw [ih, dispatch_cb]

theorem runEvents_feeds (events : List Event) :
    ∀ s : Filter σ α, (runEvents s events).feeds = s.feeds := by
  induction events with
  | nil => intro s; rfl
  | cons e es ih =>
    intro s; simp only [runEvents, List.foldl_cons] at ih ⊢; rw [ih, dispatch_feeds]

theorem runEvents_parserState (events : List Event) :
    ∀ s : Filter σ α, (runEvents s events).parser_ = s.parser_ := by
  induction events with
  | nil => intro s; rfl
  | cons e es ih =>
    intro s; simp only [runEvents, List.foldl_cons] at ih ⊢; rw [ih, dispatch_parserState]

theorem runEvents_append (s : Filter σ α) (xs ys : List Event) :
    runEvents s (xs ++ ys) = runEvents (runEvents s xs) ys := by
  simp [runEvents, List.foldl_append]

theorem execute_cb (env : Env σ α) (s : Filter σ α) (d : Bytes) :
    (execute env s d).2.cb_ = s.cb_ := by
  simp [execute, runEvents_cb]

theorem execute_feeds (env : Env σ α) (s : Filter σ α) (d : Bytes) :
    (execute env s d).2.feeds = s.feeds ++ [d] := by
  simp [execute, runEvents_feeds]

theorem dispatch_restores (s : Filter σ α) (e : Event) :
    (dispatch s e).restores = s.restores := by
  cases e <;> simp only [dispatch, handleMessageBegin, handleHeaderField, handleHeaderValue,
    handleHeadersComplete, completeLastHeader] <;> split_ifs <;> rfl

theorem runEvents_restores (events : List Event) :
    ∀ s : Filter σ α, (runEvents s events).restores = s.restores := by
  induction events with
  | nil => intro s; rfl
  | cons e es ih =>
    intro s; simp only [runEvents, List.foldl_cons] at ih ⊢; rw [ih, dispatch_restores]

theorem execute_restores (env : Env σ α) (s : Filter σ α) (d : Bytes) :
    (execute env s d).2.restores = s.restores := by
  simp [execute, runEvents_restores]

/-- The redirect step when the header value is empty or does not parse: only the store is
touched. -/
theorem resolveMseRedirect_of_invalid (env : Env σ α) (s : Filter σ α)
    (h : findHeaderValue s MseOriginalDstHost = [] ∨
      env.parseInternetAddressAndPortNoThrow (findHeaderValue s MseOriginalDstHost) = none) :
    resolveMseRedirect env s = some { s with m_headers := [] } := by
  have hr : restoreMseLocalAddress env s (findHeaderValue s MseOriginalDstHost) = some s := by
    unfold restoreMseLocalAddress
    rcases h with h | h
    · simp [h]
    · simp [h]
  simp only [resolveMseRedirect, hr]
  by_cases hm : s.m_headers = []
  · simp only [hm, ne_eq, not_true_eq_false, if_false]
    cases s
    simp_all
  · simp [hm]

/-- The redirect step when the header value parses and the callbacks are set. -/
theorem resolveMseRedirect_of_valid (env : Env σ α) (s : Filter σ α)
    (sock : ConnectionSocket α) (a : α) (hcb : s.cb_ = some sock)
    (hne : findHeaderValue s MseOriginalDstHost ≠ [])
    (hp : env.parseInternetAddressAndPortNoThrow (findHeaderValue s MseOriginalDstHost) = some a) :
    resolveMseRedirect env s = some { s with
      m_headers := [],
      cb_ := some { sock with connectionInfoProvider :=
        { localAddress := a, localAddressRestored := true } },
      restores := s.restores ++ [a] } := by
  have hr : restoreMseLocalAddress env s (findHeaderValue s MseOriginalDstHost) =
      some { s with
        cb_ := some { sock with connectionInfoProvider :=
          { localAddress := a, localAddressRestored := true } },
        restores := s.restores ++ [a] } := by
    unfold restoreMseLocalAddress
    simp [hne, hp, hcb, ConnectionInfo.restoreLocalAddress]
  simp only [resolveMseRedirect, hr]
  by_cases hm : s.m_headers = []
  · simp [hm]
  · simp [hm]

/-- The redirect step has a result once the callbacks are set; the result has an empty store
and the feeds and the parser of the state it started from. -/
theorem resolveMseRedirect_total (env : Env σ α) (s : Filter σ α) (sock : ConnectionSocket α)
    (hcb : s.cb_ = some sock) :
    ∃ s', resolveMseRedirect env s = some s' ∧ s'.m_headers = [] ∧ s'.feeds = s.feeds ∧
      s'.parser_ = s.parser_ := by
  by_cases h : findHeaderValue s MseOriginalDstHost = []
  · exact ⟨_, resolveMseRedirect_of_invalid env s (Or.inl h), rfl, rfl, rfl⟩
  · cases hp : env.parseInternetAddressAndPortNoThrow (findHeaderValue s MseOriginalDstHost) with
    | none => exact ⟨_, resolveMseRedirect_of_invalid env s (Or.inr hp), rfl, rfl, rfl⟩
    | some a => exact ⟨_, resolveMseRedirect_of_valid env s sock a hcb h hp, rfl, rfl, rfl⟩

/-- Whatever the redirect step returns has an empty store. -/
theorem resolveMseRedirect_headers (env : Env σ α) (s s' : Filter σ α)
    (h : resolveMseRedirect env s = some s') : s'.m_headers = [] := by
  unfold resolveMseRedirect at h
  split at h
  · rename_i s1 _
    simp only [Option.some.injEq] at h
    subst h
    by_cases hm : s1.m_headers = []
    · simp [hm]
    · simp [hm]
  · cases h

/-- The function `parseHttpHeader` on a window with a terminator and no leading line
terminator. -/
theorem parseHttpHeader_of_terminator (env : Env σ α) (s : Filter σ α) (data : Bytes)
    (pos : Nat)
    (hfirst : data.head? ≠ some '\r' ∧ data.head? ≠ some '\n')
    (hpos : find data terminator = some pos) :
    parseHttpHeader env s data =
      if (execute env s (data.take (pos + 4))).1 ≠ HPE_OK ∧
          (execute env s (data.take (pos + 4))).1 ≠ HPE_PAUSED ∧
          (execute env s (data.take (pos + 4))).1 ≠ HPE_STRICT ∧
          (execute env s (data.take (pos + 4))).1 ≠ HPE_INTERNAL then
        some (ParseState.Error, (execute env s (data.take (pos + 4))).2)
      else
        (resolveMseRedirect env (execute env s (data.take (pos + 4))).2).map
          (fun s2 => (ParseState.Done, s2)) := by
  cases data with
  | nil => simp [find, startsWith, terminator] at hpos
  | cons c rest =>
    have hc : ¬ (c = '\r' ∨ c = '\n') := by
      simp only [List.head?_cons, ne_eq, Option.some.injEq] at hfirst
      tauto
    simp only [parseHttpHeader, hc, if_false, hpos]
    split
    · rfl
    · cases resolveMseRedirect env (execute env s (List.take (pos + 4) (c :: rest))).2 <;> rfl

/-- The function `onData` in terms of `parseHttpHeader`: pass-through unless the outcome is
`Continue`. -/
theorem onData_of_parse (env : Env σ α) (s s' : Filter σ α) (data : Bytes) (out : ParseState)
    (h : parseHttpHeader env s data = some (out, s')) :
    onData env s data =
      some (if out = ParseState.Continue then FilterStatus.StopIteration else FilterStatus.Continue,
        s') := by
  unfold onData
  rw [h]
  cases out <;> rfl

/-- Successive `header-value` callbacks act as one callback with the concatenated bytes. -/
theorem runEvents_headerValues (vs : List Bytes) : ∀ s : Filter σ α, vs ≠ [] →
    runEvents s (vs.map Event.headerValue) = handleHeaderValue s vs.flatten := by
  induction vs with
  | nil => intro s h; exact absurd rfl h
  | cons v rest ih =>
    intro s _
    by_cases hr : rest = []
    · subst hr
      simp [runEvents, dispatch]
    · have h := ih (handleHeaderValue s v) hr
      simp only [runEvents, List.map_cons, List.foldl_cons, dispatch] at h ⊢
      rw [h]
      simp [handleHeaderValue, List.append_assoc]

/-- When `find` returns `npos` the needle occurs at no position. -/
theorem find_none_spec (needle data : Bytes) (h : find data needle = none) :
    ∀ q, (data.drop q).take needle.length ≠ needle := by
  intro q hq
  have hex : ∃ n, (data.drop n).take needle.length = needle := ⟨q, hq⟩
  have hfirst := find_eq_some_of_first needle data (Nat.find hex) (Nat.find_spec hex)
    (fun n hn => Nat.find_min hex hn)
  rw [h] at hfirst
  cases hfirst

/-- A run of one byte that is not `\r` holds no header-block terminator. -/
theorem replicate_no_terminator (c : Char) (hc : c ≠ '\r') (n q : Nat) :
    ((List.replicate n c).drop q).take 4 ≠ terminator := by
  rw [List.drop_replicate, List.take_replicate]
  intro h
  cases hm : min 4 (n - q) with
  | zero => rw [hm] at h; simp [terminator] at h
  | succ k =>
    rw [hm] at h
    simp only [List.replicate_succ, terminator, List.cons.injEq] at h
    exact hc h.1

/-- The function `absl::ascii_tolower` never returns an uppercase ASCII letter. -/
theorem ascii_tolower_not_upper (c : Char) :
    ¬ (65 ≤ (ascii_tolower c).toNat ∧ (ascii_tolower c).toNat ≤ 90) := by
  unfold ascii_tolower
  split
  · rename_i h
    generalize c.toNat = n at h
    obtain ⟨h1, h2⟩ := h
    interval_cases n <;> decide
  · assumption

theorem AsciiStrToLower_not_upper (b : Bytes) :
    ∀ c ∈ AsciiStrToLower b, ¬ (65 ≤ c.toNat ∧ c.toNat ≤ 90) := by
  intro c hc
  obtain ⟨x, _, rfl⟩ := List.mem_map.1 hc
  exact ascii_tolower_not_upper x

theorem AsciiStrToLower_ne_nil (b : Bytes) (h : b ≠ []) : AsciiStrToLower b ≠ [] := by
  simpa [AsciiStrToLower] using h

/-- Every callback keeps the keys of the store and the pending field free of uppercase ASCII
letters. -/
theorem dispatch_keys_lower (s : Filter σ α) (e : Event)
    (hstore : ∀ x ∈ s.m_headers, ∀ c ∈ x.1, ¬ (65 ≤ c.toNat ∧ c.toNat ≤ 90))
    (hfield : ∀ c ∈ s.m_curField, ¬ (65 ≤ c.toNat ∧ c.toNat ≤ 90)) :
    (∀ x ∈ (dispatch s e).m_headers, ∀ c ∈ x.1, ¬ (65 ≤ c.toNat ∧ c.toNat ≤ 90)) ∧
    (∀ c ∈ (dispatch s e).m_curField, ¬ (65 ≤ c.toNat ∧ c.toNat ≤ 90)) := by
  have hins : ∀ x ∈ multimapInsert s.m_headers (s.m_curField, s.m_curValue),
      ∀ c ∈ x.1, ¬ (65 ≤ c.toNat ∧ c.toNat ≤ 90) := by
    intro x hx
    rcases (mem_multimapInsert _ x s.m_headers).1 hx with h | h
    · subst h; exact hfield
    · exact hstore x h
  cases e with
  | messageBegin =>
    exact ⟨hstore, by simp [dispatch, handleMessageBegin]⟩
  | headerField b =>
    refine ⟨?_, ?_⟩
    · simp only [dispatch, handleHeaderField, completeLastHeader]
      split_ifs <;> assumption
    · simp only [dispatch, handleHeaderField]
      exact AsciiStrToLower_not_upper b
  | headerValue b =>
    exact ⟨hstore, hfield⟩
  | headersComplete =>
    refine ⟨?_, ?_⟩
    · simp only [dispatch, handleHeadersComplete, completeLastHeader]
      split_ifs <;> assumption
    · simp only [dispatch, handleHeadersComplete, completeLastHeader]
      split_ifs <;> assumption

theorem runEvents_keys_lower (events : List Event) : ∀ s : Filter σ α,
    (∀ x ∈ s.m_headers, ∀ c ∈ x.1, ¬ (65 ≤ c.toNat ∧ c.toNat ≤ 90)) →
    (∀ c ∈ s.m_curField, ¬ (65 ≤ c.toNat ∧ c.toNat ≤ 90)) →
    (∀ x ∈ (runEvents s events).m_headers, ∀ c ∈ x.1, ¬ (65 ≤ c.toNat ∧ c.toNat ≤ 90)) ∧
    (∀ c ∈ (runEvents s events).m_curField, ¬ (65 ≤ c.toNat ∧ c.toNat ≤ 90)) := by
  induction events with
  | nil => intro s h1 h2; exact ⟨h1, h2⟩
  | cons e es ih =>
    intro s h1 h2
    obtain ⟨h3, h4⟩ := dispatch_keys_lower s e h1 h2
    exact ih (dispatch s e) h3 h4

/-- The store after the callbacks of a header block and headers-complete, from a state whose
last event was a value: the store before, the pair that was pending, and one entry per
header. -/
theorem runEvents_headerCallbacks (hs : List (Bytes × List Bytes)) : ∀ t : Filter σ α,
    t.m_lastWasValue = true → (∀ h ∈ hs, h.1 ≠ [] ∧ h.2 ≠ []) →
    (runEvents t (headerCallbacks hs ++ [Event.headersComplete])).m_headers.Perm
      (t.m_headers ++ (if t.m_curField ≠ [] then [(t.m_curField, t.m_curValue)] else []) ++
        hs.map (fun h => (AsciiStrToLower h.1, h.2.flatten))) := by
  induction hs with
  | nil =>
    intro t _ _
    simp only [headerCallbacks, List.nil_append, runEvents, List.foldl_cons, List.foldl_nil,
      dispatch, handleHeadersComplete, completeLastHeader, List.map_nil, List.append_nil]
    split_ifs
    · exact (multimapInsert_perm _ _).trans (List.perm_append_singleton _ _).symm
    · simp
  | cons h rest ih =>
    intro t hlast hfields
    have hh := hfields h (List.mem_cons_self _ _)
    have hrest : ∀ x ∈ rest, x.1 ≠ [] ∧ x.2 ≠ [] :=
      fun x hx => hfields x (List.mem_cons_of_mem _ hx)
    have hlow : AsciiStrToLower h.1 ≠ [] := AsciiStrToLower_ne_nil h.1 hh.1
    have hrun : runEvents t (headerCallbacks (h :: rest) ++ [Event.headersComplete]) =
        runEvents (handleHeaderValue (handleHeaderField t h.1) h.2.flatten)
          (headerCallbacks rest ++ [Event.headersComplete]) := by
      have hv := runEvents_headerValues h.2 (handleHeaderField t h.1) hh.2
      simp only [runEvents] at hv
      simp only [headerCallbacks, List.cons_append, List.append_assoc, runEvents,
        List.foldl_cons, List.foldl_append, dispatch, hv]
    rw [hrun]
    have hi := ih (handleHeaderValue (handleHeaderField t h.1) h.2.flatten) rfl hrest
    have hstore : (handleHeaderValue (handleHeaderField t h.1) h.2.flatten).m_headers.Perm
        (t.m_headers ++ (if t.m_curField ≠ [] then [(t.m_curField, t.m_curValue)] else [])) := by
      simp only [handleHeaderValue, handleHeaderField, completeLastHeader, hlast, if_true]
      split_ifs
      · exact (multimapInsert_perm _ _).trans (List.perm_append_singleton _ _).symm
      · simp
    have hfield : (handleHeaderValue (handleHeaderField t h.1) h.2.flatten).m_curField =
        AsciiStrToLower h.1 := rfl
    have hvalue : (handleHeaderValue (handleHeaderField t h.1) h.2.flatten).m_curValue =
        h.2.flatten := by
      simp [handleHeaderValue, handleHeaderField, hlast]
    rw [hfield, hvalue, if_pos hlow] at hi
    refine hi.trans ?_
    simp only [List.map_cons, List.append_assoc, List.singleton_append]
    exact List.Perm.append_right _ hstore |>.trans (by simp [List.append_assoc])

/-- The redirect step, once the callbacks are set: either no `restoreLocalAddress` call is
made and the socket is as it was, or exactly one is made and applied to the socket. -/
theorem resolveMseRedirect_socket (env : Env σ α) (s : Filter σ α) (sock : ConnectionSocket α)
    (hcb : s.cb_ = some sock) :
    ∃ s', resolveMseRedirect env s = some s' ∧
      ((s'.restores = s.restores ∧ s'.cb_ = some sock) ∨
        ∃ addr, s'.restores = s.restores ++ [addr] ∧
          s'.cb_ = some { sock with connectionInfoProvider :=
            (sock.connectionInfoProvider.restoreLocalAddress addr) }) := by
  by_cases h : findHeaderValue s MseOriginalDstHost = []
  · exact ⟨_, resolveMseRedirect_of_invalid env s (Or.inl h), Or.inl ⟨rfl, hcb⟩⟩
  · cases hp : env.parseInternetAddressAndPortNoThrow (findHeaderValue s MseOriginalDstHost) with
    | none => exact ⟨_, resolveMseRedirect_of_invalid env s (Or.inr hp), Or.inl ⟨rfl, hcb⟩⟩
    | some a =>
      exact ⟨_, resolveMseRedirect_of_valid env s sock a hcb h hp, Or.inr ⟨a, rfl, rfl⟩⟩

/-- The function `parseHttpHeader` on a non-empty window, once the callbacks are set: it
returns, with `Done` or `Error`; either it makes no `restoreLocalAddress` call and the socket
is as it was, or it makes exactly one, applied to the socket, and the outcome is `Done`. -/
theorem parseHttpHeader_cases (env : Env σ α) (s : Filter σ α) (sock : ConnectionSocket α)
    (data : Bytes) (hcb : s.cb_ = some sock) (hne : data ≠ []) :
    ∃ out s', parseHttpHeader env s data = some (out, s') ∧
      (out = ParseState.Done ∨ out = ParseState.Error) ∧
      ((s'.restores = s.restores ∧ s'.cb_ = some sock) ∨
        ∃ addr, out = ParseState.Done ∧ s'.restores = s.restores ++ [addr] ∧
          s'.cb_ = some { sock with connectionInfoProvider :=
            (sock.connectionInfoProvider.restoreLocalAddress addr) }) := by
  cases data with
  | nil => exact absurd rfl hne
  | cons c rest =>
    by_cases hc : c = '\r' ∨ c = '\n'
    · refine ⟨ParseState.Error, s, ?_, Or.inr rfl, Or.inl ⟨rfl, hcb⟩⟩
      simp only [parseHttpHeader, hc, if_true]
    · cases hf : find (c :: rest) terminator with
      | none =>
        refine ⟨ParseState.Error, s, ?_, Or.inr rfl, Or.inl ⟨rfl, hcb⟩⟩
        simp only [parseHttpHeader, hc, if_false, hf]
      | some pos =>
        have hfirst : (c :: rest).head? ≠ some '\r' ∧ (c :: rest).head? ≠ some '\n' := by
          simp only [List.head?_cons, ne_eq, Option.some.injEq]
          tauto
        have hparse := parseHttpHeader_of_terminator env s (c :: rest) pos hfirst hf
        have hcb1 : (execute env s ((c :: rest).take (pos + 4))).2.cb_ = some sock := by
          rw [execute_cb, hcb]
        have hrs := execute_restores env s ((c :: rest).take (pos + 4))
        obtain ⟨s2, hres, hcb2⟩ := resolveMseRedirect_socket env
          (execute env s ((c :: rest).take (pos + 4))).2 sock hcb1
        split at hparse
        · exact ⟨ParseState.Error, _, hparse, Or.inr rfl, Or.inl ⟨hrs, hcb1⟩⟩
        · rw [hres] at hparse
          refine ⟨ParseState.Done, s2, hparse, Or.inl rfl, ?_⟩
          rcases hcb2 with ⟨h1, h2⟩ | ⟨addr, h1, h2⟩
          · exact Or.inl ⟨by rw [h1, hrs], h2⟩
          · exact Or.inr ⟨addr, rfl, by rw [h1, hrs], h2⟩

/-- Whatever `parseHttpHeader` returns, it is not `Continue`. -/
theorem parseHttpHeader_ne_continue (env : Env σ α) (s s' : Filter σ α) (data : Bytes)
    (out : ParseState) (h : parseHttpHeader env s data = some (out, s')) :
    out ≠ ParseState.Continue := by
  intro hout
  subst hout
  cases data with
  | nil => simp [parseHttpHeader] at h
  | cons c rest =>
    simp only [parseHttpHeader] at h
    split at h
    · simp at h
    · split at h
      · split at h
        · simp at h
        · split at h
          · simp at h
          · cases h
      · simp at h

/-- Against a byte that is no uppercase letter, equality up to case is equality after
`ascii_tolower`. -/
theorem sameIgnoringCase_iff (c k : Char) (hk : ¬ (65 ≤ k.toNat ∧ k.toNat ≤ 90)) :
    sameIgnoringCase c k = true ↔ ascii_tolower c = k := by
  have hk' : (decide (65 ≤ k.toNat) && decide (k.toNat ≤ 90)) = false := by
    simpa using hk
  unfold sameIgnoringCase ascii_tolower
  rw [hk']
  by_cases hc : 65 ≤ c.toNat ∧ c.toNat ≤ 90
  · have hval : (Char.ofNat (c.toNat + 32)).toNat = c.toNat + 32 := by
      obtain ⟨h1, h2⟩ := hc
      generalize c.toNat = n at h1 h2
      interval_cases n <;> decide
    have hbeq : (c == k) = false := by
      simpa using fun h : c = k => hk (h ▸ hc)
    rw [if_pos hc, hbeq]
    simp only [hc.1, hc.2, decide_True, Bool.and_self, Bool.true_and, Bool.false_and,
      Bool.or_false, Bool.false_or, beq_iff_eq]
    constructor
    · intro h
      rw [← h]
      exact Char.ofNat_toNat k
    · intro h
      rw [← h]
      exact hval
  · rw [if_neg hc]
    have hc' : (decide (65 ≤ c.toNat) && decide (c.toNat ≤ 90)) = false := by
      simpa using hc
    rw [hc']
    simp

/-- Against a name without uppercase letters, equality up to case is equality after
`AsciiStrToLower`. -/
theorem eqIgnoringCase_iff (k : Bytes) : ∀ f : Bytes,
    (∀ c ∈ k, ¬ (65 ≤ c.toNat ∧ c.toNat ≤ 90)) →
    (eqIgnoringCase f k = true ↔ AsciiStrToLower f = k) := by
  induction k with
  | nil =>
    intro f _
    cases f <;> simp [eqIgnoringCase, AsciiStrToLower]
  | cons x xs ih =>
    intro f hk
    cases f with
    | nil => simp [eqIgnoringCase, AsciiStrToLower]
    | cons c cs =>
      have hx := hk x (List.mem_cons_self _ _)
      have hxs : ∀ c ∈ xs, ¬ (65 ≤ c.toNat ∧ c.toNat ≤ 90) :=
        fun c hc => hk c (List.mem_cons_of_mem _ hc)
      have h := ih cs hxs
      simp only [AsciiStrToLower] at h
      simp only [eqIgnoringCase, Bool.and_eq_true, sameIgnoringCase_iff c x hx, h,
        AsciiStrToLower, List.map_cons, List.cons.injEq]

/-- The lookup after the callbacks of a header block, from a store without the key: when
some header of the block has the key as its name, up to letter case, and all such headers
carry the value `v`, the lookup of the key gives `v`. -/
theorem findHeaderValue_headerCallbacks (s : Filter σ α) (hs : List (Bytes × List Bytes))
    (key v : Bytes)
    (hkey : ∀ c ∈ key, ¬ (65 ≤ c.toNat ∧ c.toNat ≤ 90))
    (hstore : ∀ e ∈ s.m_headers, e.1 ≠ key)
    (hfields : ∀ h ∈ hs, h.1 ≠ [] ∧ h.2 ≠ [])
    (hex : ∃ h ∈ hs, eqIgnoringCase h.1 key = true)
    (hall : ∀ h ∈ hs, eqIgnoringCase h.1 key = true → h.2.flatten = v) :
    findHeaderValue (runEvents s (Event.messageBegin ::
      (headerCallbacks hs ++ [Event.headersComplete]))) key = v := by
  have hperm := runEvents_headerCallbacks hs (handleMessageBegin s) rfl hfields
  have hrun : runEvents s (Event.messageBegin ::
      (headerCallbacks hs ++ [Event.headersComplete])) =
      runEvents (handleMessageBegin s) (headerCallbacks hs ++ [Event.headersComplete]) := rfl
  rw [hrun]
  have hmem : ∀ e, e ∈ (runEvents (handleMessageBegin s)
      (headerCallbacks hs ++ [Event.headersComplete])).m_headers ↔
      e ∈ s.m_headers ∨ ∃ h ∈ hs, e = (AsciiStrToLower h.1, h.2.flatten) := by
    intro e
    rw [hperm.mem_iff]
    simp only [handleMessageBegin, ne_eq, not_true_eq_false, if_false, List.append_nil,
      List.mem_append, List.mem_map]
    constructor
    · rintro (h | ⟨x, hx, rfl⟩)
      · exact Or.inl h
      · exact Or.inr ⟨x, hx, rfl⟩
    · rintro (h | ⟨x, hx, rfl⟩)
      · exact Or.inl h
      · exact Or.inr ⟨x, hx, rfl⟩
  unfold findHeaderValue
  cases hf : multimapFind (runEvents (handleMessageBegin s)
      (headerCallbacks hs ++ [Event.headersComplete])).m_headers key with
  | none =>
    exfalso
    obtain ⟨h, hh, hcase⟩ := hex
    have hin := (hmem (AsciiStrToLower h.1, h.2.flatten)).2 (Or.inr ⟨h, hh, rfl⟩)
    unfold multimapFind at hf
    have hnone := List.find?_eq_none.1 hf _ hin
    rw [(eqIgnoringCase_iff key h.1 hkey).1 hcase] at hnone
    simp at hnone
  | some e =>
    obtain ⟨hk, hin⟩ := multimapFind_some key _ e hf
    rcases (hmem e).1 hin with h | ⟨x, hx, rfl⟩
    · exact absurd hk (hstore e h)
    · exact hall x hx ((eqIgnoringCase_iff key x.1 hkey).2 hk)

end lemmas

/-! ## The claims -/

section claims

variable {σ α : Type}

/-- C1. When the window holds a request preface (a header-block terminator, no leading line
terminator), the engine accepts the bytes it is fed (`HPE_OK`), and the headers committed by
its callbacks hold the key `x-mse-original-dst-host` exactly once, with a value that parses
as an endpoint, then `parseHttpHeader` yields `Done`, `onData` passes the connection on, and
the socket of the callbacks records that endpoint as its local address with the restored flag
set. -/
theorem onData_restores_override_address (env : Env σ α) (s : Filter σ α)
    (sock : ConnectionSocket α) (data : Bytes) (pos : Nat) (host : Bytes) (a : α)
    (hcb : s.cb_ = some sock)
    (hfirst : data.head? ≠ some '\r' ∧ data.head? ≠ some '\n')
    (hpos : find data terminator = some pos)
    (hok : (execute env s (data.take (pos + 4))).1 = HPE_OK)
    (hmem : (MseOriginalDstHost, host) ∈ (execute env s (data.take (pos + 4))).2.m_headers)
    (hcount : ((execute env s (data.take (pos + 4))).2.m_headers.map Prod.fst).count
      MseOriginalDstHost = 1)
    (hne : host ≠ [])
    (hparse : env.parseInternetAddressAndPortNoThrow host = some a) :
    ∃ s', parseHttpHeader env s data = some (ParseState.Done, s') ∧
      onData env s data = some (FilterStatus.Continue, s') ∧
      s'.cb_.map ConnectionSocket.connectionInfoProvider =
        some { localAddress := a, localAddressRestored := true } := by
  have hfind :
      findHeaderValue (execute env s (data.take (pos + 4))).2 MseOriginalDstHost = host := by
    simp [findHeaderValue, multimapFind_of_unique MseOriginalDstHost host _ hmem hcount]
  have hcb1 : (execute env s (data.take (pos + 4))).2.cb_ = some sock := by
    rw [execute_cb, hcb]
  have hres := resolveMseRedirect_of_valid env (execute env s (data.take (pos + 4))).2 sock a hcb1
    (by rw [hfind]; exact hne) (by rw [hfind]; exact hparse)
  have hparseHdr := parseHttpHeader_of_terminator env s data pos hfirst hpos
  rw [hok, hres] at hparseHdr
  simp only [ne_eq, not_true_eq_false, false_and, if_false, Option.map_some'] at hparseHdr
  exact ⟨_, hparseHdr, by rw [onData_of_parse env s _ data _ hparseHdr]; rfl, rfl⟩

set_option maxRecDepth 100000 in
/-- C1 at the request of `MseTest.TestHttp11OverrideHost`, after `onAccept` on a `raw_buffer`
socket: the local address becomes `127.1.2.3:9080` and the restored flag is set. -/
theorem onData_restores_override_address_witness :
    ∃ s', parseHttpHeader testEnv acceptedFilter testHeader =
        some (ParseState.Done, s') ∧
      onData testEnv acceptedFilter testHeader =
        some (FilterStatus.Continue, s') ∧
      s'.cb_.map ConnectionSocket.connectionInfoProvider =
        some { localAddress := ⟨[127, 1, 2, 3], 9080⟩, localAddressRestored := true } :=
  onData_restores_override_address testEnv acceptedFilter
    testSocket testHeader 232 "127.1.2.3:9080".toList ⟨[127, 1, 2, 3], 9080⟩
    (by decide) (by decide) (by decide) (by decide) (by decide) (by decide) (by decide) (by decide)

/-- C2. When every value stored under `x-mse-original-dst-host` is empty or does not parse as
an endpoint (in particular when the key is absent), the redirect step only clears the store:
the callbacks, and with them the local address and the restored flag of the socket, are
unchanged.  A window whose fed bytes leave such a store, with a status the filter tolerates,
still yields `Done`, and `onData` passes the connection on. -/
theorem redirect_invalid_override_is_noop (env : Env σ α) (s : Filter σ α)
    (hstore : ∀ e ∈ s.m_headers, e.1 = MseOriginalDstHost →
      e.2 = [] ∨ env.parseInternetAddressAndPortNoThrow e.2 = none) :
    resolveMseRedirect env s = some { s with m_headers := [] } ∧
    ∀ (s0 : Filter σ α) (data : Bytes) (pos : Nat),
      (data.head? ≠ some '\r' ∧ data.head? ≠ some '\n') →
      find data terminator = some pos →
      (execute env s0 (data.take (pos + 4))).2 = s →
      ((execute env s0 (data.take (pos + 4))).1 = HPE_OK ∨
        (execute env s0 (data.take (pos + 4))).1 = HPE_PAUSED ∨
        (execute env s0 (data.take (pos + 4))).1 = HPE_STRICT ∨
        (execute env s0 (data.take (pos + 4))).1 = HPE_INTERNAL) →
      parseHttpHeader env s0 data = some (ParseState.Done, { s with m_headers := [] }) ∧
      onData env s0 data = some (FilterStatus.Continue, { s with m_headers := [] }) ∧
      s.cb_ = s0.cb_ := by
  have hres : resolveMseRedirect env s = some { s with m_headers := [] } := by
    apply resolveMseRedirect_of_invalid
    unfold findHeaderValue
    cases hf : multimapFind s.m_headers MseOriginalDstHost with
    | none => exact Or.inl rfl
    | some e =>
      obtain ⟨hk, hm⟩ := multimapFind_some MseOriginalDstHost s.m_headers e hf
      exact hstore e hm hk
  refine ⟨hres, ?_⟩
  intro s0 data pos hfirst hpos hs htol
  have hparse := parseHttpHeader_of_terminator env s0 data pos hfirst hpos
  have hif : ¬ ((execute env s0 (data.take (pos + 4))).1 ≠ HPE_OK ∧
      (execute env s0 (data.take (pos + 4))).1 ≠ HPE_PAUSED ∧
      (execute env s0 (data.take (pos + 4))).1 ≠ HPE_STRICT ∧
      (execute env s0 (data.take (pos + 4))).1 ≠ HPE_INTERNAL) := by
    rintro ⟨h1, h2, h3, h4⟩
    rcases htol with h | h | h | h
    · exact h1 h
    · exact h2 h
    · exact h3 h
    · exact h4 h
  rw [if_neg hif, hs, hres] at hparse
  simp only [Option.map_some'] at hparse
  refine ⟨hparse, ?_, ?_⟩
  · rw [onData_of_parse env s0 _ data _ hparse]; rfl
  · rw [← hs, execute_cb]

set_option maxRecDepth 100000 in
/-- C2 at the test request with `x-mse-original-dst-host: not-an-address`: the outcome is
`Done`, and the socket keeps its address and an unset restored flag. -/
theorem redirect_invalid_override_is_noop_witness :
    (parseHttpHeader testEnv acceptedFilter
        testHeaderInvalid).map Prod.fst = some ParseState.Done ∧
    (onData testEnv acceptedFilter
        testHeaderInvalid).map Prod.fst = some FilterStatus.Continue ∧
    (parseHttpHeader testEnv acceptedFilter
        testHeaderInvalid).map (fun r => r.2.cb_) = some (some testSocket) :=
  have h := (redirect_invalid_override_is_noop testEnv
    (execute testEnv acceptedFilter
      (testHeaderInvalid.take (141 + 4))).2 (by decide)).2
    acceptedFilter testHeaderInvalid 141
    (by decide) (by decide) rfl (Or.inl (by decide))
  ⟨by rw [h.1]; rfl, by rw [h.2.1]; rfl,
    by rw [h.1]; exact congrArg (fun c => some c) (h.2.2.trans (by decide))⟩

/-- C3. After message-begin and header-field(`f`), a value delivered in one or more
header-value fragments and followed by headers-complete leaves the same header store as the
value delivered whole: the store of the start with the entry (lowercase `f`, `v`) inserted
(nothing is inserted for an empty `f`). -/
theorem fragmented_value_coalesces (s : Filter σ α) (f v : Bytes) (vs : List Bytes)
    (hne : vs ≠ []) (hv : vs.flatten = v) :
    (runEvents s (Event.messageBegin :: Event.headerField f ::
        (vs.map Event.headerValue ++ [Event.headersComplete]))).m_headers =
      (runEvents s [Event.messageBegin, Event.headerField f, Event.headerValue v,
        Event.headersComplete]).m_headers ∧
    (runEvents s [Event.messageBegin, Event.headerField f, Event.headerValue v,
        Event.headersComplete]).m_headers =
      if AsciiStrToLower f ≠ [] then multimapInsert s.m_headers (AsciiStrToLower f, v)
      else s.m_headers := by
  constructor
  · have h := runEvents_headerValues vs (handleHeaderField (handleMessageBegin s) f) hne
    simp only [runEvents, List.foldl_cons, List.foldl_append, List.foldl_nil, dispatch] at h ⊢
    rw [h, hv]
  · simp only [runEvents, List.foldl_cons, List.foldl_nil, dispatch, handleMessageBegin,
      handleHeaderField, handleHeaderValue, handleHeadersComplete, completeLastHeader]
    by_cases hf : AsciiStrToLower f = []
    · simp [hf]
    · simp [hf]

/-- C3 at a value delivered in three single-byte fragments. -/
theorem fragmented_value_coalesces_witness :
    (runEvents (Filter.new testEnv false) (Event.messageBegin :: Event.headerField "Host".toList ::
        ([['a'], ['b'], ['c']].map Event.headerValue ++ [Event.headersComplete]))).m_headers =
      (runEvents (Filter.new testEnv false) [Event.messageBegin, Event.headerField "Host".toList,
        Event.headerValue "abc".toList, Event.headersComplete]).m_headers ∧
    (runEvents (Filter.new testEnv false) [Event.messageBegin, Event.headerField "Host".toList,
        Event.headerValue "abc".toList, Event.headersComplete]).m_headers =
      if AsciiStrToLower "Host".toList ≠ [] then
        multimapInsert (Filter.new testEnv false).m_headers
          (AsciiStrToLower "Host".toList, "abc".toList)
      else (Filter.new testEnv false).m_headers :=
  fragmented_value_coalesces (Filter.new testEnv false) "Host".toList "abc".toList
    [['a'], ['b'], ['c']] (by decide) (by decide)

/-- C4, the code at a field name delivered in the two fragments `Ho` and `st`: the second
header-field call overwrites the pending field instead of appending to it, so the entry is
stored under `st` and no entry has the key `host`. -/
theorem handleHeaderField_fragments_overwrite :
    (runEvents (Filter.new testEnv true) [Event.messageBegin, Event.headerField "Ho".toList,
        Event.headerField "st".toList, Event.headerValue "v".toList,
        Event.headersComplete]).m_headers = [("st".toList, "v".toList)] ∧
    multimapFind (runEvents (Filter.new testEnv true) [Event.messageBegin,
        Event.headerField "Ho".toList, Event.headerField "st".toList, Event.headerValue "v".toList,
        Event.headersComplete]).m_headers (AsciiStrToLower "Host".toList) = none := by
  decide

/-- C5 fails on the window `GET / HTTP/1.1\r\nHost: a\r\n`: it is not empty, has no
terminator and no leading line terminator, and the outcome is `Error`, not `Continue`;
`onData` passes the connection on instead of waiting for more bytes. -/
theorem parseHttpHeader_no_terminator_counterexample :
    find "GET / HTTP/1.1\r\nHost: a\r\n".toList terminator = none ∧
    (parseHttpHeader testEnv (Filter.new testEnv true)
      "GET / HTTP/1.1\r\nHost: a\r\n".toList).map Prod.fst = some ParseState.Error ∧
    (onData testEnv (Filter.new testEnv true)
      "GET / HTTP/1.1\r\nHost: a\r\n".toList).map Prod.fst = some FilterStatus.Continue := by
  decide

/-- C5 as amended. On a non-empty window without a header-block terminator (and without a
leading line terminator) the outcome is `Error` and `onData` passes the connection on; the
filter is left as it was: nothing is fed to the engine and the header store is unchanged. -/
theorem parseHttpHeader_without_terminator (env : Env σ α) (s : Filter σ α) (data : Bytes)
    (hne : data ≠ [])
    (_hfirst : data.head? ≠ some '\r' ∧ data.head? ≠ some '\n')
    (habs : ∀ q, (data.drop q).take 4 ≠ terminator) :
    parseHttpHeader env s data = some (ParseState.Error, s) ∧
    onData env s data = some (FilterStatus.Continue, s) := by
  have hfind : find data terminator = none := find_eq_none_of_absent terminator data habs
  have hparse : parseHttpHeader env s data = some (ParseState.Error, s) := by
    cases data with
    | nil => exact absurd rfl hne
    | cons c rest =>
      simp only [parseHttpHeader, hfind]
      split <;> rfl
  exact ⟨hparse, by rw [onData_of_parse env s s data _ hparse]; rfl⟩

/-- C5 as amended, at the window `GET / HTTP/1.1\r\nHost: a\r\n`. -/
theorem parseHttpHeader_without_terminator_witness :
    parseHttpHeader testEnv (Filter.new testEnv true) "GET / HTTP/1.1\r\nHost: a\r\n".toList =
      some (ParseState.Error, Filter.new testEnv true) ∧
    onData testEnv (Filter.new testEnv true) "GET / HTTP/1.1\r\nHost: a\r\n".toList =
      some (FilterStatus.Continue, Filter.new testEnv true) :=
  parseHttpHeader_without_terminator testEnv (Filter.new testEnv true)
    "GET / HTTP/1.1\r\nHost: a\r\n".toList (by decide) (by decide)
    (find_none_spec terminator "GET / HTTP/1.1\r\nHost: a\r\n".toList (by decide))

/-- C6. On a window whose first byte is `\r` or `\n` the outcome is `Error`, `onData` passes
the connection on, and the filter is left as it was: nothing is fed to the engine, no
callback runs, the header store and the socket are unchanged. -/
theorem parseHttpHeader_leading_line_terminator (env : Env σ α) (s : Filter σ α) (c : Char)
    (rest : Bytes) (hc : c = '\r' ∨ c = '\n') :
    parseHttpHeader env s (c :: rest) = some (ParseState.Error, s) ∧
    onData env s (c :: rest) = some (FilterStatus.Continue, s) := by
  have hparse : parseHttpHeader env s (c :: rest) = some (ParseState.Error, s) := by
    simp only [parseHttpHeader, hc, if_true]
  exact ⟨hparse, by rw [onData_of_parse env s s _ _ hparse]; rfl⟩

/-- C6 at the window `\r\nGET / HTTP/1.1\r\n\r\n`. -/
theorem parseHttpHeader_leading_line_terminator_witness :
    parseHttpHeader testEnv (Filter.new testEnv true) ('\r' :: "\nGET / HTTP/1.1\r\n\r\n".toList) =
      some (ParseState.Error, Filter.new testEnv true) ∧
    onData testEnv (Filter.new testEnv true) ('\r' :: "\nGET / HTTP/1.1\r\n\r\n".toList) =
      some (FilterStatus.Continue, Filter.new testEnv true) :=
  parseHttpHeader_leading_line_terminator testEnv (Filter.new testEnv true) '\r'
    "\nGET / HTTP/1.1\r\n\r\n".toList (Or.inl rfl)

/-- C7. On a window without a leading line terminator whose first header-block terminator
starts at `p`, `parseHttpHeader` makes exactly one `llhttp_execute` call, on the first `p + 4`
bytes of the window: the bytes through the terminator and none after it. -/
theorem parseHttpHeader_feeds_through_terminator (env : Env σ α) (s : Filter σ α)
    (sock : ConnectionSocket α) (data : Bytes) (p : Nat)
    (hcb : s.cb_ = some sock)
    (hfirst : data.head? ≠ some '\r' ∧ data.head? ≠ some '\n')
    (hocc : (data.drop p).take 4 = terminator)
    (hmin : ∀ q, q < p → (data.drop q).take 4 ≠ terminator) :
    ∃ out s', parseHttpHeader env s data = some (out, s') ∧
      s'.feeds = s.feeds ++ [data.take (p + 4)] ∧
      s'.parser_ = (env.llhttp_execute s.parser_ (data.take (p + 4))).1 ∧
      (data.take (p + 4)).length = p + 4 ∧
      (data.take (p + 4)).drop p = terminator := by
  have hpos : find data terminator = some p := find_eq_some_of_first terminator data p hocc hmin
  have hlen : p + 4 ≤ data.length := by
    have h := congrArg List.length hocc
    simp only [List.length_take, List.length_drop, terminator, List.length_cons,
      List.length_nil] at h
    omega
  have htake : (data.take (p + 4)).drop p = terminator := by
    rw [List.drop_take]
    simpa using hocc
  have hparse := parseHttpHeader_of_terminator env s data p hfirst hpos
  have hpar : (execute env s (data.take (p + 4))).2.parser_ =
      (env.llhttp_execute s.parser_ (data.take (p + 4))).1 := by
    simp [execute, runEvents_parserState]
  split at hparse
  · exact ⟨_, _, hparse, execute_feeds env s _, hpar, by simp [hlen], htake⟩
  · obtain ⟨s', hres, _, hfeeds, hparser⟩ := resolveMseRedirect_total env
      (execute env s (data.take (p + 4))).2 sock (by rw [execute_cb, hcb])
    rw [hres] at hparse
    exact ⟨_, _, hparse, by rw [hfeeds, execute_feeds], by rw [hparser, hpar], by simp [hlen],
      htake⟩

set_option maxRecDepth 100000 in
/-- C7 at the test request followed by the bytes `BODY`: the engine is fed the 236 bytes of
the preface. -/
theorem parseHttpHeader_feeds_through_terminator_witness :
    ∃ out s', parseHttpHeader testEnv acceptedFilter
        (testHeader ++ "BODY".toList) = some (out, s') ∧
      s'.feeds = acceptedFilter.feeds ++
        [(testHeader ++ "BODY".toList).take (232 + 4)] ∧
      s'.parser_ = (testEnv.llhttp_execute acceptedFilter.parser_
        ((testHeader ++ "BODY".toList).take (232 + 4))).1 ∧
      ((testHeader ++ "BODY".toList).take (232 + 4)).length = 232 + 4 ∧
      ((testHeader ++ "BODY".toList).take (232 + 4)).drop 232 = terminator :=
  parseHttpHeader_feeds_through_terminator testEnv acceptedFilter
    testSocket (testHeader ++ "BODY".toList) 232 (by decide) (by decide) (by decide)
    (find_some_spec terminator (testHeader ++ "BODY".toList) 232 (by decide)).2

/-- C8 fails for the status `HPE_PAUSED`: it is neither `HPE_OK` nor one of the two notices
`HPE_STRICT` and `HPE_INTERNAL`, and the outcome on `GET / HTTP/1.1\r\n\r\n` is `Done`. -/
theorem parseHttpHeader_paused_counterexample :
    (pausedEnv.llhttp_execute () "GET / HTTP/1.1\r\n\r\n".toList).2.2 = HPE_PAUSED ∧
    HPE_PAUSED ≠ HPE_OK ∧ HPE_PAUSED ≠ HPE_STRICT ∧ HPE_PAUSED ≠ HPE_INTERNAL ∧
    (parseHttpHeader pausedEnv (onAccept (Filter.new pausedEnv true) testSocket).2
      "GET / HTTP/1.1\r\n\r\n".toList).map Prod.fst = some ParseState.Done := by
  decide

/-- C8 as amended. On a window with a terminator and no leading line terminator, with `e` the
status the engine returns for the fed bytes: when `e` is `HPE_OK`, `HPE_PAUSED`, `HPE_STRICT`
or `HPE_INTERNAL` the redirect step runs on the state the callbacks left and the outcome is
`Done`; for every other `e` the outcome is `Error` and the state is the one the callbacks
left, the redirect step not run. -/
theorem parseHttpHeader_status_classification (env : Env σ α) (s : Filter σ α)
    (sock : ConnectionSocket α) (data : Bytes) (pos : Nat)
    (hcb : s.cb_ = some sock)
    (hfirst : data.head? ≠ some '\r' ∧ data.head? ≠ some '\n')
    (hpos : find data terminator = some pos) :
    (((execute env s (data.take (pos + 4))).1 = HPE_OK ∨
        (execute env s (data.take (pos + 4))).1 = HPE_PAUSED ∨
        (execute env s (data.take (pos + 4))).1 = HPE_STRICT ∨
        (execute env s (data.take (pos + 4))).1 = HPE_INTERNAL) →
      ∃ s', resolveMseRedirect env (execute env s (data.take (pos + 4))).2 = some s' ∧
        parseHttpHeader env s data = some (ParseState.Done, s')) ∧
    (¬ ((execute env s (data.take (pos + 4))).1 = HPE_OK ∨
        (execute env s (data.take (pos + 4))).1 = HPE_PAUSED ∨
        (execute env s (data.take (pos + 4))).1 = HPE_STRICT ∨
        (execute env s (data.take (pos + 4))).1 = HPE_INTERNAL) →
      parseHttpHeader env s data =
        some (ParseState.Error, (execute env s (data.take (pos + 4))).2)) := by
  have hparse := parseHttpHeader_of_terminator env s data pos hfirst hpos
  constructor
  · intro htol
    have hif : ¬ ((execute env s (data.take (pos + 4))).1 ≠ HPE_OK ∧
        (execute env s (data.take (pos + 4))).1 ≠ HPE_PAUSED ∧
        (execute env s (data.take (pos + 4))).1 ≠ HPE_STRICT ∧
        (execute env s (data.take (pos + 4))).1 ≠ HPE_INTERNAL) := by
      rintro ⟨h1, h2, h3, h4⟩
      rcases htol with h | h | h | h
      · exact h1 h
      · exact h2 h
      · exact h3 h
      · exact h4 h
    obtain ⟨s', hres, _⟩ := resolveMseRedirect_total env
      (execute env s (data.take (pos + 4))).2 sock (by rw [execute_cb, hcb])
    rw [if_neg hif, hres] at hparse
    exact ⟨s', hres, hparse⟩
  · intro hnot
    have hif : (execute env s (data.take (pos + 4))).1 ≠ HPE_OK ∧
        (execute env s (data.take (pos + 4))).1 ≠ HPE_PAUSED ∧
        (execute env s (data.take (pos + 4))).1 ≠ HPE_STRICT ∧
        (execute env s (data.take (pos + 4))).1 ≠ HPE_INTERNAL := by
      refine ⟨fun h => hnot ?_, fun h => hnot ?_, fun h => hnot ?_, fun h => hnot ?_⟩
      · exact Or.inl h
      · exact Or.inr (Or.inl h)
      · exact Or.inr (Or.inr (Or.inl h))
      · exact Or.inr (Or.inr (Or.inr h))
    rw [if_pos hif] at hparse
    exact hparse

set_option maxRecDepth 100000 in
/-- C8 as amended, at the test request: the engine stand-in returns `HPE_OK` and the outcome
is `Done`. -/
theorem parseHttpHeader_status_classification_witness :
    (execute testEnv acceptedFilter
        (testHeader.take (232 + 4))).1 = HPE_OK ∧
    ∃ s', resolveMseRedirect testEnv (execute testEnv
          acceptedFilter (testHeader.take (232 + 4))).2 =
        some s' ∧
      parseHttpHeader testEnv acceptedFilter testHeader =
        some (ParseState.Done, s') :=
  ⟨by decide,
    (parseHttpHeader_status_classification testEnv acceptedFilter
      testSocket testHeader 232 (by decide) (by decide) (by decide)).1 (Or.inl (by decide))⟩

/-- C9. Once the callbacks are set, the redirect step returns, whatever the store holds and
whatever becomes of the override, and the header store is empty afterwards; hence the store
is empty after every `onData` call whose outcome is `Done`. -/
theorem resolveMseRedirect_clears_store (env : Env σ α) (s : Filter σ α)
    (sock : ConnectionSocket α) (data : Bytes) (hcb : s.cb_ = some sock) :
    (∃ s', resolveMseRedirect env s = some s' ∧ s'.m_headers = []) ∧
    ∀ s', parseHttpHeader env s data = some (ParseState.Done, s') →
      onData env s data = some (FilterStatus.Continue, s') ∧ s'.m_headers = [] := by
  constructor
  · obtain ⟨s', hres, hm, _⟩ := resolveMseRedirect_total env s sock hcb
    exact ⟨s', hres, hm⟩
  · intro s' h
    refine ⟨by rw [onData_of_parse env s s' data _ h]; rfl, ?_⟩
    cases data with
    | nil => simp [parseHttpHeader] at h
    | cons c rest =>
      simp only [parseHttpHeader] at h
      split at h
      · simp at h
      · split at h
        · split at h
          · simp at h
          · split at h
            · rename_i s2 hres
              simp only [Option.some.injEq, Prod.mk.injEq, true_and] at h
              subst h
              exact resolveMseRedirect_headers env _ _ hres
            · cases h
        · simp at h

set_option maxRecDepth 100000 in
/-- C9 on the state the callbacks of the test request leave, whose store holds seven
entries, and on the test request itself. -/
theorem resolveMseRedirect_clears_store_witness :
    (execute testEnv acceptedFilter testHeader).2.m_headers.length
      = 7 ∧
    (∃ s', resolveMseRedirect testEnv
        (execute testEnv acceptedFilter testHeader).2 = some s' ∧
      s'.m_headers = []) ∧
    ∀ s', parseHttpHeader testEnv
        (execute testEnv acceptedFilter testHeader).2
        testHeader = some (ParseState.Done, s') →
      onData testEnv (execute testEnv acceptedFilter testHeader).2
        testHeader = some (FilterStatus.Continue, s') ∧ s'.m_headers = [] :=
  ⟨by decide,
    resolveMseRedirect_clears_store testEnv
      (execute testEnv acceptedFilter testHeader).2
      testSocket testHeader (by decide)⟩

/-- C10 fails on the state reached by message-begin, header-field(`a`), header-value(`b`),
headers-complete: its store holds the entry (`a`, `b`), and the store still holds it
after the message-begin handler has run. -/
theorem handleMessageBegin_store_counterexample :
    (handleMessageBegin (runEvents (Filter.new testEnv false) [Event.messageBegin,
      Event.headerField ['a'], Event.headerValue ['b'], Event.headersComplete])).m_headers =
      [(['a'], ['b'])] := by
  decide

/-- C10 as amended. After the message-begin handler has run the pending field and the
pending value are empty and last-was-value is true; the header store is the one the handler
found. -/
theorem handleMessageBegin_spec (s : Filter σ α) :
    (handleMessageBegin s).m_curField = [] ∧ (handleMessageBegin s).m_curValue = [] ∧
    (handleMessageBegin s).m_lastWasValue = true ∧
    (handleMessageBegin s).m_headers = s.m_headers :=
  ⟨rfl, rfl, rfl, rfl⟩

/-- C11. The header-value handler leaves the header store unchanged.  The header-field handler
leaves it unchanged or inserts the pair that was pending before the call, and nothing else;
the store it leaves does not depend on the bytes of the incoming field. -/
theorem pending_pair_not_visible (s : Filter σ α) (bytes : Bytes) :
    (handleHeaderValue s bytes).m_headers = s.m_headers ∧
    ((handleHeaderField s bytes).m_headers = s.m_headers ∨
      (handleHeaderField s bytes).m_headers =
        multimapInsert s.m_headers (s.m_curField, s.m_curValue)) ∧
    (∀ other : Bytes, (handleHeaderField s bytes).m_headers =
      (handleHeaderField s other).m_headers) ∧
    ((handleHeaderField s bytes).m_headers ≠ s.m_headers →
      s.m_lastWasValue = true ∧ s.m_curField ≠ []) := by
  refine ⟨rfl, ?_, ?_, ?_⟩
  · simp only [handleHeaderField, completeLastHeader]
    split_ifs <;> first | exact Or.inl rfl | exact Or.inr rfl
  · intro other
    simp only [handleHeaderField, completeLastHeader]
  · simp only [handleHeaderField, completeLastHeader]
    split_ifs with h1 h2 <;> intro h <;> first | exact ⟨h1, h2⟩ | exact absurd rfl h

/-- C16. The method `onAccept` returns `StopIteration` exactly when the detected transport
protocol is empty or `raw_buffer`, and then records the callbacks and changes nothing else;
for every other protocol it returns `Continue` and leaves the filter as it was: no callbacks
recorded, nothing fed to the engine. -/
theorem onAccept_engages_iff_raw_buffer (s : Filter σ α) (cb : ConnectionSocket α) :
    ((onAccept s cb).1 = FilterStatus.StopIteration ↔
      (cb.detectedTransportProtocol = [] ∨
        cb.detectedTransportProtocol = "raw_buffer".toList)) ∧
    ((cb.detectedTransportProtocol = [] ∨ cb.detectedTransportProtocol = "raw_buffer".toList) →
      onAccept s cb = (FilterStatus.StopIteration, { s with cb_ := some cb })) ∧
    (¬ (cb.detectedTransportProtocol = [] ∨
        cb.detectedTransportProtocol = "raw_buffer".toList) →
      onAccept s cb = (FilterStatus.Continue, s)) := by
  by_cases h : cb.detectedTransportProtocol = [] ∨
      cb.detectedTransportProtocol = "raw_buffer".toList
  · have hif : ¬ (cb.detectedTransportProtocol ≠ [] ∧
        cb.detectedTransportProtocol ≠ "raw_buffer".toList) := by
      rintro ⟨h1, h2⟩
      rcases h with h | h
      · exact h1 h
      · exact h2 h
    have hres : onAccept s cb = (FilterStatus.StopIteration, { s with cb_ := some cb }) := by
      simp only [onAccept, if_neg hif]
    exact ⟨⟨fun _ => h, fun _ => by rw [hres]⟩, fun _ => hres, fun hn => absurd h hn⟩
  · have hif : cb.detectedTransportProtocol ≠ [] ∧
        cb.detectedTransportProtocol ≠ "raw_buffer".toList :=
      ⟨fun h1 => h (Or.inl h1), fun h2 => h (Or.inr h2)⟩
    have hres : onAccept s cb = (FilterStatus.Continue, s) := by
      simp only [onAccept, if_pos hif]
    exact ⟨⟨fun h1 => by rw [hres] at h1; exact FilterStatus.noConfusion h1, fun h1 => absurd h1 h⟩,
      fun h1 => absurd h1 h, fun _ => hres⟩

/-- C17. Whenever the outcome of `parseHttpHeader` is `Error`, `onData` returns
`FilterStatus::Continue`, handing the connection on, and the callbacks are the ones the call
found: the local address and the restored flag of the socket are unchanged. -/
theorem onData_error_passes_through (env : Env σ α) (s s' : Filter σ α) (data : Bytes)
    (h : parseHttpHeader env s data = some (ParseState.Error, s')) :
    onData env s data = some (FilterStatus.Continue, s') ∧ s'.cb_ = s.cb_ := by
  refine ⟨by rw [onData_of_parse env s s' data _ h]; rfl, ?_⟩
  cases data with
  | nil => simp [parseHttpHeader] at h
  | cons c rest =>
    simp only [parseHttpHeader] at h
    split at h
    · simp only [Option.some.injEq, Prod.mk.injEq, true_and] at h
      rw [← h]
    · split at h
      · split at h
        · simp only [Option.some.injEq, Prod.mk.injEq, true_and] at h
          rw [← h, execute_cb]
        · split at h
          · simp at h
          · cases h
      · simp only [Option.some.injEq, Prod.mk.injEq, true_and] at h
        rw [← h]

/-- C17 at a request whose second line has no colon: the engine stand-in reports
`HPE_INVALID_HEADER_TOKEN`, the outcome is `Error`, and the socket is the one of `onAccept`. -/
theorem onData_error_passes_through_witness :
    onData testEnv acceptedFilter "GET / HTTP/1.1\r\nbad\r\n\r\n".toList =
      some (FilterStatus.Continue,
        (execute testEnv acceptedFilter "GET / HTTP/1.1\r\nbad\r\n\r\n".toList).2) ∧
    (execute testEnv acceptedFilter "GET / HTTP/1.1\r\nbad\r\n\r\n".toList).2.cb_ =
      acceptedFilter.cb_ :=
  onData_error_passes_through testEnv acceptedFilter
    (execute testEnv acceptedFilter "GET / HTTP/1.1\r\nbad\r\n\r\n".toList).2
    "GET / HTTP/1.1\r\nbad\r\n\r\n".toList rfl

/-- C18. On a window that has reached `Config::MAX_INSPECT_SIZE`, which is `8192` and what
`maxReadBytes` returns, and holds no header-block terminator, the outcome is `Error`, not
`Continue`, the filter is left as it was, and `onData` hands the connection on. -/
theorem parseHttpHeader_at_cap (env : Env σ α) (s : Filter σ α) (data : Bytes)
    (hcap : Config.MAX_INSPECT_SIZE ≤ data.length)
    (habs : ∀ q, (data.drop q).take 4 ≠ terminator) :
    parseHttpHeader env s data = some (ParseState.Error, s) ∧
    (parseHttpHeader env s data).map Prod.fst ≠ some ParseState.Continue ∧
    onData env s data = some (FilterStatus.Continue, s) ∧
    Config.MAX_INSPECT_SIZE = 8192 ∧ maxReadBytes = Config.MAX_INSPECT_SIZE := by
  have hfind : find data terminator = none := find_eq_none_of_absent terminator data habs
  have hparse : parseHttpHeader env s data = some (ParseState.Error, s) := by
    cases data with
    | nil => simp [Config.MAX_INSPECT_SIZE] at hcap
    | cons c rest =>
      simp only [parseHttpHeader, hfind]
      split <;> rfl
  refine ⟨hparse, ?_, by rw [onData_of_parse env s s data _ hparse]; rfl, rfl, rfl⟩
  rw [hparse]
  simp

/-- C18 at the window of 8192 bytes `a`. -/
theorem parseHttpHeader_at_cap_witness :
    parseHttpHeader testEnv acceptedFilter (List.replicate 8192 'a') =
      some (ParseState.Error, acceptedFilter) ∧
    (parseHttpHeader testEnv acceptedFilter (List.replicate 8192 'a')).map Prod.fst ≠
      some ParseState.Continue ∧
    onData testEnv acceptedFilter (List.replicate 8192 'a') =
      some (FilterStatus.Continue, acceptedFilter) ∧
    Config.MAX_INSPECT_SIZE = 8192 ∧ maxReadBytes = Config.MAX_INSPECT_SIZE :=
  parseHttpHeader_at_cap testEnv acceptedFilter (List.replicate 8192 'a')
    (by rw [List.length_replicate]; exact Nat.le_of_eq rfl)
    (replicate_no_terminator 'a' (by decide) 8192)

/-- C19. From an empty store, message-begin, then for each header of a list, in order, one
header-field call with its non-empty name followed by one or more header-value calls, then
headers-complete, leave a store that holds, as a multiset, exactly one entry
(lowercase name, concatenated value) per header of the list: repeated names give separate
entries. -/
theorem headers_committed_as_multiset (s : Filter σ α) (hs : List (Bytes × List Bytes))
    (hempty : s.m_headers = [])
    (hfields : ∀ h ∈ hs, h.1 ≠ [] ∧ h.2 ≠ []) :
    (runEvents s (Event.messageBegin ::
        (headerCallbacks hs ++ [Event.headersComplete]))).m_headers.Perm
      (hs.map (fun h => (AsciiStrToLower h.1, h.2.flatten))) := by
  have h := runEvents_headerCallbacks hs (handleMessageBegin s) rfl hfields
  simp only [runEvents, List.foldl_cons, dispatch] at h ⊢
  refine h.trans ?_
  simp [handleMessageBegin, hempty]

/-- C19 at three headers, two of them named `Host` in different letter case, the first with
its value in two fragments: the store holds three entries, two of them under `host`. -/
theorem headers_committed_as_multiset_witness :
    (runEvents (Filter.new testEnv false) (Event.messageBegin ::
        (headerCallbacks [("Host".toList, ["a".toList, "b".toList]),
          ("Accept".toList, ["*/*".toList]), ("host".toList, ["c".toList])] ++
          [Event.headersComplete]))).m_headers.Perm
      ([("Host".toList, ["a".toList, "b".toList]), ("Accept".toList, ["*/*".toList]),
        ("host".toList, ["c".toList])].map (fun h => (AsciiStrToLower h.1, h.2.flatten))) :=
  headers_committed_as_multiset (Filter.new testEnv false)
    [("Host".toList, ["a".toList, "b".toList]), ("Accept".toList, ["*/*".toList]),
      ("host".toList, ["c".toList])] rfl (by decide)

/-- C20. In every state that the four handlers reach from a new filter, in any order and
number, no key of the header store holds an uppercase ASCII letter.  Hence the lookup of the
lowercase key finds the override header whatever letter case its name was sent in: after the
callbacks of any header block, on a store that did not hold the key, when some header has the
name `x-mse-original-dst-host` up to the case of its letters and all such headers carry the
value `v`, the lookup gives `v`. -/
theorem store_keys_lowercase (env : Env σ α) (lastWasValue : Bool) (events : List Event) :
    (∀ x ∈ (runEvents (Filter.new env lastWasValue) events).m_headers,
      ∀ c ∈ x.1, ¬ (65 ≤ c.toNat ∧ c.toNat ≤ 90)) ∧
    (∀ (s : Filter σ α) (hs : List (Bytes × List Bytes)) (v : Bytes),
      (∀ e ∈ s.m_headers, e.1 ≠ MseOriginalDstHost) →
      (∀ h ∈ hs, h.1 ≠ [] ∧ h.2 ≠ []) →
      (∃ h ∈ hs, eqIgnoringCase h.1 MseOriginalDstHost = true) →
      (∀ h ∈ hs, eqIgnoringCase h.1 MseOriginalDstHost = true → h.2.flatten = v) →
      findHeaderValue (runEvents s (Event.messageBegin ::
        (headerCallbacks hs ++ [Event.headersComplete]))) MseOriginalDstHost = v) := by
  constructor
  · exact (runEvents_keys_lower events (Filter.new env lastWasValue)
      (by simp [Filter.new]) (by simp [Filter.new])).1
  · intro s hs v hstore hfields hex hall
    exact findHeaderValue_headerCallbacks s hs MseOriginalDstHost v (by decide) hstore hfields
      hex hall

/-- C20 at a block of three headers in which the override header is named
`X-MSE-Original-Dst-Host` and its value comes in two fragments: the lookup of the lowercase
key gives `1.2.3.4:80`. -/
theorem store_keys_lowercase_witness :
    findHeaderValue (runEvents (Filter.new testEnv false) (Event.messageBegin ::
      (headerCallbacks [("Host".toList, ["test.com".toList]),
        ("X-MSE-Original-Dst-Host".toList, ["1.2.3.4".toList, ":80".toList]),
        ("Accept".toList, ["*/*".toList])] ++ [Event.headersComplete])))
      MseOriginalDstHost = "1.2.3.4:80".toList :=
  (store_keys_lowercase testEnv false []).2 (Filter.new testEnv false)
    [("Host".toList, ["test.com".toList]),
      ("X-MSE-Original-Dst-Host".toList, ["1.2.3.4".toList, ":80".toList]),
      ("Accept".toList, ["*/*".toList])] "1.2.3.4:80".toList
    (by decide) (by decide) (by decide) (by decide)

set_option maxRecDepth 100000 in
/-- C21 fails on two `onData` calls on one filter with a growing window.  The first call, on
the test request, yields `Done` after one `restoreLocalAddress` call.  The second call, on the
window grown by the first bytes of a next message, yields `Done` again and makes a second
`restoreLocalAddress` call. -/
theorem onData_second_override_counterexample :
    testHeaderLonger.take testHeader.length = testHeader ∧
    (parseHttpHeader testEnv acceptedFilter testHeader).map (fun r => (r.1, r.2.restores)) =
      some (ParseState.Done, [⟨[127, 1, 2, 3], 9080⟩]) ∧
    ((onData testEnv acceptedFilter testHeader).bind
        (fun r => parseHttpHeader testEnv r.2 testHeaderLonger)).map
        (fun r => (r.1, r.2.restores)) =
      some (ParseState.Done, [⟨[127, 1, 2, 3], 9080⟩, ⟨[127, 1, 2, 3], 9080⟩]) := by
  decide

/-- C21 as amended. One `onData` call on a non-empty window, once the callbacks are set,
returns `FilterStatus::Continue`, which ends the inspection on the side of the caller, and
makes at most one `restoreLocalAddress` call: none, with the socket as it was, or exactly one,
applied to the socket.  The filter keeps no record of an earlier `Done`: whatever calls were
made before, a window whose preface the engine accepts and whose committed headers hold the
override key once, with a value that parses, makes one more. -/
theorem onData_at_most_one_override (env : Env σ α) (s : Filter σ α)
    (sock : ConnectionSocket α) (data : Bytes) (hcb : s.cb_ = some sock) (hne : data ≠ []) :
    (∃ s', onData env s data = some (FilterStatus.Continue, s') ∧
      ((s'.restores = s.restores ∧ s'.cb_ = some sock) ∨
        ∃ addr, s'.restores = s.restores ++ [addr] ∧
          s'.cb_ = some { sock with connectionInfoProvider :=
            (sock.connectionInfoProvider.restoreLocalAddress addr) })) ∧
    (∀ (pos : Nat) (host : Bytes) (a : α),
      (data.head? ≠ some '\r' ∧ data.head? ≠ some '\n') →
      find data terminator = some pos →
      (execute env s (data.take (pos + 4))).1 = HPE_OK →
      (MseOriginalDstHost, host) ∈ (execute env s (data.take (pos + 4))).2.m_headers →
      ((execute env s (data.take (pos + 4))).2.m_headers.map Prod.fst).count
        MseOriginalDstHost = 1 →
      host ≠ [] →
      env.parseInternetAddressAndPortNoThrow host = some a →
      ∃ s', onData env s data = some (FilterStatus.Continue, s') ∧
        s'.restores = s.restores ++ [a]) := by
  constructor
  · obtain ⟨out, s', hparse, hout, hsock⟩ := parseHttpHeader_cases env s sock data hcb hne
    refine ⟨s', ?_, ?_⟩
    · rw [onData_of_parse env s s' data out hparse]
      rcases hout with h | h <;> subst h <;> rfl
    · rcases hsock with h | ⟨addr, _, h1, h2⟩
      · exact Or.inl h
      · exact Or.inr ⟨addr, h1, h2⟩
  · intro pos host a hfirst hpos hok hmem hcount hhost hparse
    have hfind :
        findHeaderValue (execute env s (data.take (pos + 4))).2 MseOriginalDstHost = host := by
      simp [findHeaderValue, multimapFind_of_unique MseOriginalDstHost host _ hmem hcount]
    have hcb1 : (execute env s (data.take (pos + 4))).2.cb_ = some sock := by
      rw [execute_cb, hcb]
    have hres := resolveMseRedirect_of_valid env (execute env s (data.take (pos + 4))).2 sock a
      hcb1 (by rw [hfind]; exact hhost) (by rw [hfind]; exact hparse)
    have hp := parseHttpHeader_of_terminator env s data pos hfirst hpos
    rw [hok, hres] at hp
    simp only [ne_eq, not_true_eq_false, false_and, if_false, Option.map_some'] at hp
    refine ⟨_, by rw [onData_of_parse env s _ data _ hp]; rfl, ?_⟩
    show (execute env s (data.take (pos + 4))).2.restores ++ [a] = s.restores ++ [a]
    rw [execute_restores]

set_option maxRecDepth 100000 in
/-- C21 as amended, at the test request on the filter of the test: the call makes the one
`restoreLocalAddress` call for `127.1.2.3:9080`. -/
theorem onData_at_most_one_override_witness :
    ∃ s', onData testEnv acceptedFilter testHeader = some (FilterStatus.Continue, s') ∧
      s'.restores = acceptedFilter.restores ++ [⟨[127, 1, 2, 3], 9080⟩] :=
  (onData_at_most_one_override testEnv acceptedFilter testSocket testHeader rfl
    (by decide)).2 232 "127.1.2.3:9080".toList ⟨[127, 1, 2, 3], 9080⟩
    (by decide) (by decide) (by decide) (by decide) (by decide) (by decide) (by decide)

/-- C23. On a non-empty window, once the callbacks are set, `parseHttpHeader` returns `Done`
or `Error`, never `Continue`, and `onData` returns `FilterStatus::Continue`, never
`StopIteration`: the decision is made on the first window.  Whatever the state,
`parseHttpHeader` returns no `Continue`. -/
theorem parseHttpHeader_never_continue (env : Env σ α) (s : Filter σ α)
    (sock : ConnectionSocket α) (data : Bytes) (hcb : s.cb_ = some sock) (hne : data ≠ []) :
    (∃ out s', parseHttpHeader env s data = some (out, s') ∧
      (out = ParseState.Done ∨ out = ParseState.Error) ∧ out ≠ ParseState.Continue ∧
      onData env s data = some (FilterStatus.Continue, s')) ∧
    (∀ (t t' : Filter σ α) (out : ParseState),
      parseHttpHeader env t data = some (out, t') → out ≠ ParseState.Continue) ∧
    (∀ (t t' : Filter σ α) (st : FilterStatus),
      onData env t data = some (st, t') → st ≠ FilterStatus.StopIteration) := by
  refine ⟨?_, ?_, ?_⟩
  · obtain ⟨out, s', hparse, hout, _⟩ := parseHttpHeader_cases env s sock data hcb hne
    refine ⟨out, s', hparse, hout, parseHttpHeader_ne_continue env s s' data out hparse, ?_⟩
    rw [onData_of_parse env s s' data out hparse]
    rcases hout with h | h <;> subst h <;> rfl
  · intro t t' out h
    exact parseHttpHeader_ne_continue env t t' data out h
  · intro t t' st h
    cases hp : parseHttpHeader env t data with
    | none => simp [onData, hp] at h
    | some r =>
      obtain ⟨out, t2⟩ := r
      have hne2 := parseHttpHeader_ne_continue env t t2 data out hp
      rw [onData_of_parse env t t2 data out hp, if_neg hne2] at h
      simp only [Option.some.injEq, Prod.mk.injEq] at h
      rw [← h.1]
      exact fun hc => FilterStatus.noConfusion hc

/-- C23 at the first 16 bytes of a request, a window that a longer read would complete: the
outcome is `Error` at once. -/
theorem parseHttpHeader_never_continue_witness :
    (∃ out s', parseHttpHeader testEnv acceptedFilter "GET / HTTP/1.1\r\n".toList =
        some (out, s') ∧
      (out = ParseState.Done ∨ out = ParseState.Error) ∧ out ≠ ParseState.Continue ∧
      onData testEnv acceptedFilter "GET / HTTP/1.1\r\n".toList =
        some (FilterStatus.Continue, s')) ∧
    (∀ (t t' : Filter Unit Ipv4Endpoint) (out : ParseState),
      parseHttpHeader testEnv t "GET / HTTP/1.1\r\n".toList = some (out, t') →
      out ≠ ParseState.Continue) ∧
    (∀ (t t' : Filter Unit Ipv4Endpoint) (st : FilterStatus),
      onData testEnv t "GET / HTTP/1.1\r\n".toList = some (st, t') →
      st ≠ FilterStatus.StopIteration) :=
  parseHttpHeader_never_continue testEnv acceptedFilter testSocket "GET / HTTP/1.1\r\n".toList
    rfl (by decide)

end claims

end Mse

namespace Http1

open Mse (HPE_OK HPE_PAUSED HPE_USER HPE_UNEXPECTED_CONTENT_LENGTH)

/-- C12. The function `callbackResultToInt` sends `Error` to `HPE_USER`, `Success` to `HPE_OK`,
which is `0`, `NoBody` to `1`, `NoBodyData` to `2` and `Paused` to `HPE_PAUSED`; it is
injective, so `NoBody` and `NoBodyData` are never encoded as the `0` of `Success`. -/
theorem callbackResultToInt_encoding :
    callbackResultToInt CallbackResult.Error = HPE_USER ∧
    callbackResultToInt CallbackResult.Success = HPE_OK ∧
    callbackResultToInt CallbackResult.Success = 0 ∧
    callbackResultToInt CallbackResult.NoBody = 1 ∧
    callbackResultToInt CallbackResult.NoBodyData = 2 ∧
    callbackResultToInt CallbackResult.Paused = HPE_PAUSED ∧
    Function.Injective callbackResultToInt ∧
    callbackResultToInt CallbackResult.NoBody ≠ callbackResultToInt CallbackResult.Success ∧
    callbackResultToInt CallbackResult.NoBodyData ≠
      callbackResultToInt CallbackResult.Success := by
  refine ⟨rfl, rfl, rfl, rfl, rfl, rfl, ?_, by decide, by decide⟩
  intro a b h
  cases a <;> cases b <;> first | rfl | exact absurd h (by decide)

/-- C13. For every engine code `e`, `intToStatus e` is `Ok` exactly when `e` is `HPE_OK`,
`Paused` exactly when `e` is `HPE_PAUSED`, and `Error` for every other code, among them
`HPE_UNEXPECTED_CONTENT_LENGTH`; `getStatus` is `intToStatus` of the engine's errno. -/
theorem intToStatus_classification (e : Int) :
    (intToStatus e = ParserStatus.Ok ↔ e = HPE_OK) ∧
    (intToStatus e = ParserStatus.Paused ↔ e = HPE_PAUSED) ∧
    (intToStatus e = ParserStatus.Error ↔ e ≠ HPE_OK ∧ e ≠ HPE_PAUSED) ∧
    intToStatus HPE_UNEXPECTED_CONTENT_LENGTH = ParserStatus.Error ∧
    (∀ impl : Impl, impl.getStatus = intToStatus impl.parser_.error) := by
  refine ⟨?_, ?_, ?_, by decide, fun _ => rfl⟩
  · unfold intToStatus HPE_OK HPE_PAUSED HPE_USER
    constructor
    · intro h
      split_ifs at h
      assumption
    · intro h
      subst h
      decide
  · unfold intToStatus HPE_OK HPE_PAUSED HPE_USER
    constructor
    · intro h
      split_ifs at h
      assumption
    · intro h
      subst h
      decide
  · unfold intToStatus HPE_OK HPE_PAUSED HPE_USER
    constructor
    · intro h
      split_ifs at h <;> (refine ⟨?_, ?_⟩ <;> omega)
    · rintro ⟨h1, h2⟩
      split_ifs <;> rfl

/-- C14. On a non-null slice of length `len > 0`, `execute` returns `len` when the engine
reports `HPE_OK`; otherwise it returns the offset of the engine's error position from the
start of the slice, as a `size_t`, and when that position lies inside the slice the offset
is exact and at most `len`. -/
theorem execute_consumed_count (eng : Engine) (impl : Impl) (slice : Nat) (mem : Mse.Bytes)
    (len : Int) (hslice : slice ≠ 0) (hlen : 0 < len) (hint : len < 2 ^ 31) :
    ((eng.llhttp_execute impl.parser_ slice (mem.take len.toNat)).2 = HPE_OK →
      ((impl.execute eng slice mem len).1 : Int) = len) ∧
    ((eng.llhttp_execute impl.parser_ slice (mem.take len.toNat)).2 ≠ HPE_OK →
      (impl.execute eng slice mem len).1 =
        toSizeT (((eng.llhttp_execute impl.parser_ slice (mem.take len.toNat)).1.error_pos : Int)
          - (slice : Int))) ∧
    ((eng.llhttp_execute impl.parser_ slice (mem.take len.toNat)).2 ≠ HPE_OK →
      slice ≤ (eng.llhttp_execute impl.parser_ slice (mem.take len.toNat)).1.error_pos →
      ((eng.llhttp_execute impl.parser_ slice (mem.take len.toNat)).1.error_pos : Int) ≤
        (slice : Int) + len →
      (impl.execute eng slice mem len).1 =
        (eng.llhttp_execute impl.parser_ slice (mem.take len.toNat)).1.error_pos - slice ∧
      ((impl.execute eng slice mem len).1 : Int) ≤ len) := by
  have hcond : ¬ (slice = 0 ∨ len = 0) := by
    rintro (h | h)
    · exact hslice h
    · omega
  refine ⟨?_, ?_, ?_⟩
  · intro hok
    simp only [Impl.execute, if_neg hcond, hok, ne_eq, not_true_eq_false, if_false, toSizeT]
    omega
  · intro herr
    simp only [Impl.execute, if_neg hcond, ne_eq, herr, not_false_eq_true, if_true]
  · intro herr h1 h2
    simp only [Impl.execute, if_neg hcond, ne_eq, herr, not_false_eq_true, if_true, toSizeT]
    omega

/-- C14 at the 59-byte request with two `Content-Length` headers, stored at address 4096, on
an engine that reports `HPE_UNEXPECTED_CONTENT_LENGTH` 39 bytes into the slice: `execute`
returns 39. -/
theorem execute_consumed_count_witness :
    (Impl.execute (Mse.stubEngine HPE_UNEXPECTED_CONTENT_LENGTH 39)
        (Impl.new (Mse.stubEngine HPE_UNEXPECTED_CONTENT_LENGTH 39) MessageType.Request) 4096
        "POST / HTTP/1.1\r\nContent-Length: 003\r\nContent-Length: 001\r\n".toList 59).1 =
      4135 - 4096 ∧
    ((Impl.execute (Mse.stubEngine HPE_UNEXPECTED_CONTENT_LENGTH 39)
        (Impl.new (Mse.stubEngine HPE_UNEXPECTED_CONTENT_LENGTH 39) MessageType.Request) 4096
        "POST / HTTP/1.1\r\nContent-Length: 003\r\nContent-Length: 001\r\n".toList 59).1 : Int)
      ≤ 59 :=
  (execute_consumed_count (Mse.stubEngine HPE_UNEXPECTED_CONTENT_LENGTH 39)
    (Impl.new (Mse.stubEngine HPE_UNEXPECTED_CONTENT_LENGTH 39) MessageType.Request) 4096
    "POST / HTTP/1.1\r\nContent-Length: 003\r\nContent-Length: 001\r\n".toList 59
    (by decide) (by decide) (by decide)).2.2 (by decide) (by decide) (by decide)

/-- C15 fails on a new request adapter and on a new response adapter over an engine whose
`llhttp_init` zeroes the parser: `contentLength()` holds the value `0`. -/
theorem contentLength_fresh_counterexample :
    (Impl.new (Mse.stubEngine 0 0) MessageType.Request).contentLength = some 0 ∧
    (Impl.new (Mse.stubEngine 0 0) MessageType.Response).contentLength = some 0 := by
  decide

/-- C15 as amended. A newly constructed adapter of either direction reports a content length
that is present, the `content_length` field of the initialised parser; it reports none once
`setHasContentLength(false)` has been called. -/
theorem contentLength_fresh (eng : Engine) (type : MessageType) :
    (Impl.new eng type).contentLength = some (eng.llhttp_init type).content_length ∧
    ((Impl.new eng type).setHasContentLength false).contentLength = none :=
  ⟨rfl, rfl⟩

/-- The function `intToStatus` gives `Error` for every code but `HPE_OK` and `HPE_PAUSED`. -/
theorem intToStatus_eq_error_iff (e : Int) :
    intToStatus e = ParserStatus.Error ↔ e ≠ HPE_OK ∧ e ≠ HPE_PAUSED := by
  unfold intToStatus HPE_OK HPE_PAUSED HPE_USER
  constructor
  · intro h
    split_ifs at h <;> (refine ⟨?_, ?_⟩ <;> omega)
  · rintro ⟨h1, h2⟩
    split_ifs <;> rfl

/-- C22. The method `contentLength` returns the engine's `content_length` when the flag
`has_content_length_` is set and no value when it is not, whatever the engine state;
`setHasContentLength(b)` makes the flag `b` and leaves the engine state alone.  On a new
request adapter, a message with `Content-Length: 003`, for which the engine stand-in holds
the content length 3, gives the value 3. -/
theorem contentLength_follows_flag (impl : Impl) (b : Bool) :
    (impl.has_content_length_ = true →
      impl.contentLength = some impl.parser_.content_length) ∧
    (impl.has_content_length_ = false → impl.contentLength = none) ∧
    (impl.setHasContentLength b).has_content_length_ = b ∧
    (impl.setHasContentLength b).parser_ = impl.parser_ ∧
    (Impl.execute Mse.contentLengthEngine
      (Impl.new Mse.contentLengthEngine MessageType.Request) 4096
      "POST / HTTP/1.1\r\nContent-Length: 003\r\n\r\n".toList 40).2.contentLength = some 3 := by
  refine ⟨?_, ?_, rfl, rfl, by decide⟩
  · intro h
    simp [Impl.contentLength, h]
  · intro h
    simp [Impl.contentLength, h]

set_option maxRecDepth 100000 in
/-- C25 fails for the code `HPE_STRICT`: on the test request with an engine that reports it,
the check of `parseHttpHeader` lets the outcome be `Done`, while `intToStatus` gives
`Error`. -/
theorem inspector_adapter_strict_counterexample :
    (Mse.strictEnv.llhttp_execute () (Mse.testHeader.take (232 + 4))).2.2 = Mse.HPE_STRICT ∧
    (Mse.parseHttpHeader Mse.strictEnv Mse.acceptedFilter Mse.testHeader).map Prod.fst =
      some Mse.ParseState.Done ∧
    intToStatus Mse.HPE_STRICT = ParserStatus.Error := by
  decide

/-- C25 as amended. On a window with a terminator and no leading line terminator, with `e` the
status the engine returns for the fed bytes, the outcome of `parseHttpHeader` is `Error`
exactly when `intToStatus e` is `Error` and `e` is neither `HPE_STRICT` nor `HPE_INTERNAL`;
hence every code that `intToStatus` reports as `Ok` or `Paused` yields `Done`. -/
theorem inspector_adapter_classification {σ α : Type} (env : Mse.Env σ α) (s : Mse.Filter σ α)
    (sock : Mse.ConnectionSocket α) (data : Mse.Bytes) (pos : Nat)
    (hcb : s.cb_ = some sock)
    (hfirst : data.head? ≠ some '\r' ∧ data.head? ≠ some '\n')
    (hpos : Mse.find data Mse.terminator = some pos) :
    ((Mse.parseHttpHeader env s data).map Prod.fst = some Mse.ParseState.Error ↔
      (intToStatus (Mse.execute env s (data.take (pos + 4))).1 = ParserStatus.Error ∧
        (Mse.execute env s (data.take (pos + 4))).1 ≠ Mse.HPE_STRICT ∧
        (Mse.execute env s (data.take (pos + 4))).1 ≠ Mse.HPE_INTERNAL)) ∧
    (intToStatus (Mse.execute env s (data.take (pos + 4))).1 ≠ ParserStatus.Error →
      (Mse.parseHttpHeader env s data).map Prod.fst = some Mse.ParseState.Done) := by
  have hparse := Mse.parseHttpHeader_of_terminator env s data pos hfirst hpos
  have hiff := intToStatus_eq_error_iff (Mse.execute env s (data.take (pos + 4))).1
  obtain ⟨s2, hres, _⟩ := Mse.resolveMseRedirect_total env
    (Mse.execute env s (data.take (pos + 4))).2 sock (by rw [Mse.execute_cb, hcb])
  by_cases htol : (Mse.execute env s (data.take (pos + 4))).1 ≠ HPE_OK ∧
      (Mse.execute env s (data.take (pos + 4))).1 ≠ HPE_PAUSED ∧
      (Mse.execute env s (data.take (pos + 4))).1 ≠ Mse.HPE_STRICT ∧
      (Mse.execute env s (data.take (pos + 4))).1 ≠ Mse.HPE_INTERNAL
  · rw [if_pos htol] at hparse
    have herr : intToStatus (Mse.execute env s (data.take (pos + 4))).1 = ParserStatus.Error :=
      hiff.2 ⟨htol.1, htol.2.1⟩
    refine ⟨⟨fun _ => ⟨herr, htol.2.2.1, htol.2.2.2⟩, fun _ => by rw [hparse]; rfl⟩, ?_⟩
    intro hne
    exact absurd herr hne
  · rw [if_neg htol, hres] at hparse
    have hdone : (Mse.parseHttpHeader env s data).map Prod.fst = some Mse.ParseState.Done := by
      rw [hparse]; rfl
    refine ⟨⟨fun h => ?_, fun h => ?_⟩, fun _ => hdone⟩
    · rw [hdone] at h
      exact absurd h (by decide)
    · exact absurd ⟨(hiff.1 h.1).1, (hiff.1 h.1).2, h.2.1, h.2.2⟩ htol

set_option maxRecDepth 100000 in
/-- C25 as amended, at the test request: the engine stand-in reports `HPE_OK`, which
`intToStatus` gives as `Ok`, and the outcome is `Done`. -/
theorem inspector_adapter_classification_witness :
    intToStatus (Mse.execute Mse.testEnv Mse.acceptedFilter (Mse.testHeader.take (232 + 4))).1 =
      ParserStatus.Ok ∧
    (Mse.parseHttpHeader Mse.testEnv Mse.acceptedFilter Mse.testHeader).map Prod.fst =
      some Mse.ParseState.Done :=
  ⟨by decide,
    (inspector_adapter_classification Mse.testEnv Mse.acceptedFilter Mse.testSocket
      Mse.testHeader 232 (by decide) (by decide) (by decide)).2 (by decide)⟩

end Http1
